import Mathlib

/-!
# Verification of the HattrickData persistence service (`server.py`)

A shallow embedding of the FastAPI/sqlite service in `server.py`:

* a calendar-date model for Python's `datetime.strptime`/`strftime` with the
  formats `"%d/%m/%Y"` and `"%Y-%m-%d"` used by the service;
* an executable JSON value type with `dumps`/`loads` modelling Python's
  `json` module (restricted to integer numbers: the service never produces
  floats and no claim depends on them);
* the two sqlite tables as lists of rows, and the two request handlers
  `save_player` and `get_all_players` as pure functions that also report how
  many storage connections they opened and closed on the taken path.

Machine-checked statements about the service follow the definitions.
-/

namespace Hattrick

/-! ## Dates

`datetime.strptime` compiles its format through `_strptime.TimeRE`, whose
numeric directives are the regexes `%d` = `3[01]|[12]\d|0[1-9]|[1-9]| [1-9]`
(note the space-padded single-digit day), `%m` = `1[0-2]|0[1-9]|[1-9]` and
`%Y` = `\d\d\d\d` (exactly four digits).  The whole string must be
consumed, and the matched components must form a real proleptic-Gregorian
calendar date with year in 1..9999 (the `datetime` constructor).  On output,
`datetime.strftime` delegates to the platform (glibc) `strftime`: `%d` and
`%m` are zero-padded to two digits, but `%Y` is plain decimal, NOT
zero-padded — year 12 prints as `12`.  Digits are modelled as the ASCII
ones. -/

structure Date where
  year : Nat
  month : Nat
  day : Nat
deriving DecidableEq, Repr

def isLeap (y : Nat) : Bool :=
  (y % 4 == 0 && y % 100 != 0) || y % 400 == 0

def daysInMonth (y m : Nat) : Nat :=
  if m = 2 then (if isLeap y then 29 else 28)
  else if m = 4 ∨ m = 6 ∨ m = 9 ∨ m = 11 then 30
  else 31

/-- The checks performed by the `datetime` constructor: year 1..9999, month
1..12, day within the month. -/
def validDate (y m d : Nat) : Bool :=
  1 ≤ y && y ≤ 9999 && 1 ≤ m && m ≤ 12 && 1 ≤ d && d ≤ daysInMonth y m

def Date.valid (dt : Date) : Bool := validDate dt.year dt.month dt.day

def digitVal (c : Char) : Nat := c.toNat - '0'.toNat

/-- `%d`: the alternatives of `3[01]|[12]\d|0[1-9]|[1-9]| [1-9]`, tried in
the regex's order.  In both formats used here the character after the day is
a non-digit separator, so an alternative that matches but strands a digit
before the separator can never be rescued by backtracking into a shorter
one (the shorter alternative would need that digit to be the separator);
committing to the first matching alternative is therefore exactly the regex
engine's behaviour. -/
def parseDay : List Char → Option (Nat × List Char)
  | [] => none
  | c :: cs =>
    if c = '3' then
      match cs with
      | c₂ :: rest =>
        if c₂ = '0' ∨ c₂ = '1' then some (30 + digitVal c₂, rest) else some (3, cs)
      | [] => some (3, [])
    else if c = '1' ∨ c = '2' then
      match cs with
      | c₂ :: rest =>
        if c₂.isDigit then some (digitVal c * 10 + digitVal c₂, rest)
        else some (digitVal c, cs)
      | [] => some (digitVal c, [])
    else if c = '0' ∨ c = ' ' then
      match cs with
      | c₂ :: rest => if c₂.isDigit ∧ ¬(c₂ = '0') then some (digitVal c₂, rest) else none
      | [] => none
    else if c.isDigit then some (digitVal c, cs)
    else none

/-- `%m`: `1[0-2]|0[1-9]|[1-9]` — no space alternative. -/
def parseMonth : List Char → Option (Nat × List Char)
  | [] => none
  | c :: cs =>
    if c = '1' then
      match cs with
      | c₂ :: rest =>
        if c₂ = '0' ∨ c₂ = '1' ∨ c₂ = '2' then some (10 + digitVal c₂, rest)
        else some (1, cs)
      | [] => some (1, [])
    else if c = '0' then
      match cs with
      | c₂ :: rest => if c₂.isDigit ∧ ¬(c₂ = '0') then some (digitVal c₂, rest) else none
      | [] => none
    else if c.isDigit then some (digitVal c, cs)
    else none

/-- `%Y`: `\d\d\d\d`, exactly four digits. -/
def parseYear4 : List Char → Option (Nat × List Char)
  | c₁ :: c₂ :: c₃ :: c₄ :: rest =>
    if c₁.isDigit ∧ c₂.isDigit ∧ c₃.isDigit ∧ c₄.isDigit then
      some (((digitVal c₁ * 10 + digitVal c₂) * 10 + digitVal c₃) * 10 + digitVal c₄, rest)
    else none
  | _ => none

/-- `datetime.strptime(s, "%d/%m/%Y")`, `None` standing for the
`ValueError` raised on a regex mismatch, leftover input ("unconverted data
remains") or an invalid calendar date. -/
def strptimeDMY (s : String) : Option Date :=
  match parseDay s.toList with
  | none => none
  | some (d, rest₁) =>
    match rest₁ with
    | '/' :: rest₂ =>
      match parseMonth rest₂ with
      | none => none
      | some (m, rest₃) =>
        match rest₃ with
        | '/' :: rest₄ =>
          match parseYear4 rest₄ with
          | none => none
          | some (y, rest₅) =>
            if rest₅.isEmpty && validDate y m d then some ⟨y, m, d⟩ else none
        | _ => none
    | _ => none

/-- `datetime.strptime(s, "%Y-%m-%d")` (used on the stored sortable form);
`%Y` again requires exactly four digits, so a stored year below 1000 —
written unpadded by `strftime` — does not re-parse. -/
def strptimeISO (s : String) : Option Date :=
  match parseYear4 s.toList with
  | none => none
  | some (y, rest₁) =>
    match rest₁ with
    | '-' :: rest₂ =>
      match parseMonth rest₂ with
      | none => none
      | some (m, rest₃) =>
        match rest₃ with
        | '-' :: rest₄ =>
          match parseDay rest₄ with
          | none => none
          | some (d, rest₅) =>
            if rest₅.isEmpty && validDate y m d then some ⟨y, m, d⟩ else none
        | _ => none
    | _ => none

/-- `%02d`: two digits for the values a date can hold (day, month < 100). -/
def pad2 (n : Nat) : String :=
  if n < 100 then String.mk [Nat.digitChar (n / 10), Nat.digitChar (n % 10)]
  else toString n

/-- `%Y` on output: glibc `strftime` renders the year in plain decimal
without zero-padding (a `datetime` year is 1..9999, so at most four
digits; the final branch is unreachable from valid dates). -/
def yearChars (y : Nat) : List Char :=
  if y < 10 then [Nat.digitChar y]
  else if y < 100 then [Nat.digitChar (y / 10), Nat.digitChar (y % 10)]
  else if y < 1000 then
    [Nat.digitChar (y / 100), Nat.digitChar (y / 10 % 10), Nat.digitChar (y % 10)]
  else if y < 10000 then
    [Nat.digitChar (y / 1000), Nat.digitChar (y / 100 % 10),
     Nat.digitChar (y / 10 % 10), Nat.digitChar (y % 10)]
  else (toString y).toList

/-- `d.strftime("%Y-%m-%d")`, the internal sortable form. -/
def strftimeISO (dt : Date) : String :=
  String.mk (yearChars dt.year) ++ "-" ++ pad2 dt.month ++ "-" ++ pad2 dt.day

/-- `d.strftime("%d/%m/%Y")`, the external day-month-year form. -/
def strftimeDMY (dt : Date) : String :=
  pad2 dt.day ++ "/" ++ pad2 dt.month ++ "/" ++ String.mk (yearChars dt.year)

/-! ## JSON

The `json` module as used by the service (`json.dumps` on the skills
mapping, `json.loads` on skills text).  Numbers are restricted to integers:
the service itself never creates floats, and on a float literal our `loads`
reports an error instead of producing a value outside the model.  `dumps`
keeps Python's default separators `", "`/`": "` and escapes exactly the
characters whose escaping `loads` depends on (quote, backslash, control
characters); unlike `ensure_ascii=True` it leaves other non-ASCII
characters raw, which `loads` — Python's and ours — accepts unchanged.
Error messages carry no positions; only their existence matters to the
service, which embeds them in its own error text.  Where Python would keep
a lone surrogate from a `\uXXXX` escape our `loads` reports an error (Lean
strings cannot hold one); no such text is produced by `dumps`. -/


mutual

/-- A JSON value.  Arrays and objects hold their own chain types; an object
chain is an association list in insertion order, as a Python dict is. -/
inductive Json where
  | null : Json
  | bool (b : Bool) : Json
  | num (n : Int) : Json
  | str (s : String) : Json
  | arr (xs : JsonElems) : Json
  | obj (xs : JsonMembers) : Json
deriving DecidableEq

inductive JsonElems where
  | nil : JsonElems
  | cons (hd : Json) (tl : JsonElems) : JsonElems
deriving DecidableEq

inductive JsonMembers where
  | nil : JsonMembers
  | cons (key : String) (val : Json) (tl : JsonMembers) : JsonMembers
deriving DecidableEq

end

/-- Number of members of an object chain. -/
def mLen : JsonMembers → Nat
  | .nil => 0
  | .cons _ _ tl => 1 + mLen tl

/-- Is `key` absent from the chain? -/
def mFresh (key : String) : JsonMembers → Bool
  | .nil => true
  | .cons k _ tl => if k = key then false else mFresh key tl

/-- First value bound to `key`, if any (a dict lookup, keys being unique on
the Python side). -/
def mFind? (key : String) : JsonMembers → Option Json
  | .nil => none
  | .cons k v tl => if k = key then some v else mFind? key tl

/-- Last value bound to `key`, defaulting to `v`. -/
def mLastVal (key : String) (v : Json) : JsonMembers → Json
  | .nil => v
  | .cons k v' tl => if k = key then mLastVal key v' tl else mLastVal key v tl

/-- Drop every binding of `key`. -/
def mRemove (key : String) : JsonMembers → JsonMembers
  | .nil => .nil
  | .cons k v tl => if k = key then mRemove key tl else .cons k v (mRemove key tl)

def mAppend : JsonMembers → JsonMembers → JsonMembers
  | .nil, ys => ys
  | .cons k v tl, ys => .cons k v (mAppend tl ys)

def eAppend : JsonElems → JsonElems → JsonElems
  | .nil, ys => ys
  | .cons h tl, ys => .cons h (eAppend tl ys)

/-- Feeding duplicate keys to a Python dict keeps the position of the first
occurrence and the value of the last.  The `Nat` is recursion fuel
(`mLen xs` suffices). -/
def mDedupF : Nat → JsonMembers → JsonMembers
  | _, .nil => .nil
  | 0, _ => .nil
  | fuel + 1, .cons k v tl => .cons k (mLastVal k v tl) (mDedupF fuel (mRemove k tl))

def mDedup (xs : JsonMembers) : JsonMembers := mDedupF (mLen xs) xs

mutual

/-- Well-formedness: every object chain binds each key at most once — true
of every value that exists on the Python side, where objects are dicts. -/
def wfJ : Json → Bool
  | .null => true
  | .bool _ => true
  | .num _ => true
  | .str _ => true
  | .arr xs => wfE xs
  | .obj xs => wfM xs

def wfE : JsonElems → Bool
  | .nil => true
  | .cons h tl => wfJ h && wfE tl

def wfM : JsonMembers → Bool
  | .nil => true
  | .cons key v tl => mFresh key tl && wfJ v && wfM tl

end

/-- `\uXXXX` escape (lowercase hex) for a code point `n < 0x10000`. -/
def uEsc (n : Nat) : List Char :=
  ['\\', 'u', Nat.digitChar (n / 4096 % 16), Nat.digitChar (n / 256 % 16),
   Nat.digitChar (n / 16 % 16), Nat.digitChar (n % 16)]

def escChar (c : Char) : List Char :=
  if c = '\"' then ['\\', '\"']
  else if c = '\\' then ['\\', '\\']
  else if c = '\n' then ['\\', 'n']
  else if c = '\t' then ['\\', 't']
  else if c = '\r' then ['\\', 'r']
  else if c.toNat = 8 then ['\\', 'b']
  else if c.toNat = 12 then ['\\', 'f']
  else if c.toNat < 32 then uEsc c.toNat
  else [c]

def escList : List Char → List Char
  | [] => []
  | c :: cs => escChar c ++ escList cs

/-- Decimal digits of `n`, most significant first, no leading zero; the
fuel argument (`n` itself suffices) only drives the recursion. -/
def natDigitsAux : Nat → Nat → List Char
  | 0, n => [Nat.digitChar (n % 10)]
  | fuel + 1, n =>
    if n < 10 then [Nat.digitChar n]
    else natDigitsAux fuel (n / 10) ++ [Nat.digitChar (n % 10)]

def natDigits (n : Nat) : List Char := natDigitsAux n n

/-- `repr` of a Python int. -/
def intChars : Int → List Char
  | .ofNat n => natDigits n
  | .negSucc m => '-' :: natDigits (m + 1)

mutual

/-- `json.dumps` at the character level, with Python's default separators
`", "` and `": "`. -/
def dumpsJ : Json → List Char
  | .null => ['n', 'u', 'l', 'l']
  | .num n => intChars n
  | .bool true => ['t', 'r', 'u', 'e']
  | .bool false => ['f', 'a', 'l', 's', 'e']
  | .str s => '\"' :: escList s.data ++ ['\"']
  | .arr xs => '[' :: dumpsE xs ++ [']']
  | .obj xs => '\x7b' :: dumpsM xs ++ ['\x7d']

def dumpsE : JsonElems → List Char
  | .nil => []
  | .cons h .nil => dumpsJ h
  | .cons h (.cons h₂ tl) => dumpsJ h ++ ',' :: ' ' :: dumpsE (.cons h₂ tl)

def dumpsM : JsonMembers → List Char
  | .nil => []
  | .cons key v .nil => '\"' :: escList key.data ++ '\"' :: ':' :: ' ' :: dumpsJ v
  | .cons key v (.cons k₂ v₂ tl) =>
      ('\"' :: escList key.data ++ '\"' :: ':' :: ' ' :: dumpsJ v)
        ++ ',' :: ' ' :: dumpsM (.cons k₂ v₂ tl)

end

/-- `json.dumps`. -/
def dumps (j : Json) : String := String.mk (dumpsJ j)

def skipWs : List Char → List Char
  | [] => []
  | c :: cs => if c = ' ' ∨ c = '\t' ∨ c = '\n' ∨ c = '\r' then skipWs cs else c :: cs

def hexVal? (c : Char) : Option Nat :=
  if '0' ≤ c ∧ c ≤ '9' then some (c.toNat - '0'.toNat)
  else if 'a' ≤ c ∧ c ≤ 'f' then some (c.toNat - 'a'.toNat + 10)
  else if 'A' ≤ c ∧ c ≤ 'F' then some (c.toNat - 'A'.toNat + 10)
  else none

def unescapeChar? (c : Char) : Option Char :=
  if c = '\"' then some '\"'
  else if c = '\\' then some '\\'
  else if c = '/' then some '/'
  else if c = 'b' then some (Char.ofNat 8)
  else if c = 'f' then some (Char.ofNat 12)
  else if c = 'n' then some '\n'
  else if c = 'r' then some '\r'
  else if c = 't' then some '\t'
  else none

/-- Body of a JSON string, after the opening quote: the decoded characters
and the input following the closing quote. -/
def parseStrBody : List Char → Except String (List Char × List Char)
  | [] => .error "Unterminated string"
  | '\"' :: rest => .ok ([], rest)
  | '\\' :: 'u' :: e₁ :: e₂ :: e₃ :: e₄ :: rest =>
    (match hexVal? e₁, hexVal? e₂, hexVal? e₃, hexVal? e₄ with
     | some h₁, some h₂, some h₃, some h₄ =>
       let n := ((h₁ * 16 + h₂) * 16 + h₃) * 16 + h₄
       if n < 55296 ∨ 57344 ≤ n then
         match parseStrBody rest with
         | .ok (s, r) => .ok (Char.ofNat n :: s, r)
         | .error e => .error e
       else if n < 56320 then
         match rest with
         | '\\' :: 'u' :: f₁ :: f₂ :: f₃ :: f₄ :: rest₂ =>
           (match hexVal? f₁, hexVal? f₂, hexVal? f₃, hexVal? f₄ with
            | some g₁, some g₂, some g₃, some g₄ =>
              let n₂ := ((g₁ * 16 + g₂) * 16 + g₃) * 16 + g₄
              if 56320 ≤ n₂ ∧ n₂ < 57344 then
                match parseStrBody rest₂ with
                | .ok (s, r) =>
                    .ok (Char.ofNat (65536 + (n - 55296) * 1024 + (n₂ - 56320)) :: s, r)
                | .error e => .error e
              else .error "Unpaired surrogate in \\uXXXX escape"
            | _, _, _, _ => .error "Invalid \\uXXXX escape")
         | _ => .error "Unpaired surrogate in \\uXXXX escape"
       else .error "Unpaired surrogate in \\uXXXX escape"
     | _, _, _, _ => .error "Invalid \\uXXXX escape")
  | '\\' :: c :: rest =>
    (match unescapeChar? c with
     | some e =>
       match parseStrBody rest with
       | .ok (s, r) => .ok (e :: s, r)
       | .error e' => .error e'
     | none => .error "Invalid \\escape")
  | ['\\'] => .error "Unterminated string"
  | c :: rest =>
    if c.toNat < 32 then .error "Invalid control character"
    else
      match parseStrBody rest with
      | .ok (s, r) => .ok (c :: s, r)
      | .error e => .error e

def takeAllDigits (acc : Nat) : List Char → Nat × List Char
  | [] => (acc, [])
  | c :: cs =>
    if c.isDigit then takeAllDigits (acc * 10 + digitVal c) cs else (acc, c :: cs)

/-- A fractional part or exponent would make Python produce a float, which
is outside this model; we report it as an error instead. -/
def finishNum (v : Int) : List Char → Except String (Json × List Char)
  | '.' :: _ => .error "float literals are outside this model"
  | 'e' :: _ => .error "float literals are outside this model"
  | 'E' :: _ => .error "float literals are outside this model"
  | rest => .ok (.num v, rest)

/-- Python's `NUMBER_RE`: the integer part is `0` or `[1-9][0-9]*`; a digit
after a leading `0` is left unconsumed (surfacing later as a delimiter or
extra-data error, exactly as in Python). -/
def parseNumFrom (neg : Bool) : List Char → Except String (Json × List Char)
  | '0' :: rest => finishNum 0 rest
  | c :: rest =>
    if c.isDigit then
      let p := takeAllDigits (digitVal c) rest
      finishNum (if neg then -(p.1 : Int) else (p.1 : Int)) p.2
    else .error "Expecting value"
  | [] => .error "Expecting value"

def parseNum : List Char → Except String (Json × List Char)
  | '-' :: rest => parseNumFrom true rest
  | cs => parseNumFrom false cs

/-- One `"key": value` member, `pv` parsing the value. -/
def parseMemberWith (pv : List Char → Except String (Json × List Char)) :
    List Char → Except String (String × Json × List Char)
  | '\"' :: rest =>
    (match parseStrBody rest with
     | .error e => .error e
     | .ok (k, rest₂) =>
       match skipWs rest₂ with
       | ':' :: rest₃ =>
         (match pv (skipWs rest₃) with
          | .error e => .error e
          | .ok (v, rest₄) => .ok (String.mk k, v, rest₄))
       | _ => .error "Expecting colon delimiter")
  | _ => .error "Expecting property name enclosed in double quotes"

/-- After a member and trailing whitespace: `}` ends the object, `,`
continues it.  The fuel only drives the loop; the input length bounds the
number of iterations. -/
def parseObjRestWith (pv : List Char → Except String (Json × List Char)) :
    Nat → JsonMembers → List Char → Except String (Json × List Char)
  | fuel, acc, cs =>
    match cs with
    | '\x7d' :: rest => .ok (.obj (mDedup acc), rest)
    | ',' :: rest =>
      (match fuel with
       | 0 => .error "Object member loop exhausted the fuel"
       | fuel + 1 =>
         match parseMemberWith pv (skipWs rest) with
         | .error e => .error e
         | .ok (k, v, rest₂) =>
             parseObjRestWith pv fuel (mAppend acc (.cons k v .nil)) (skipWs rest₂))
    | _ => .error "Expecting comma delimiter"

/-- After `{` and leading whitespace. -/
def parseObjBodyWith (pv : List Char → Except String (Json × List Char))
    (fuel : Nat) (cs : List Char) : Except String (Json × List Char) :=
  match cs with
  | '\x7d' :: rest => .ok (.obj .nil, rest)
  | _ =>
    match parseMemberWith pv cs with
    | .error e => .error e
    | .ok (k, v, rest) => parseObjRestWith pv fuel (.cons k v .nil) (skipWs rest)

/-- After an element and trailing whitespace: `]` ends the array, `,`
continues it. -/
def parseArrRestWith (pv : List Char → Except String (Json × List Char)) :
    Nat → JsonElems → List Char → Except String (Json × List Char)
  | fuel, acc, cs =>
    match cs with
    | ']' :: rest => .ok (.arr acc, rest)
    | ',' :: rest =>
      (match fuel with
       | 0 => .error "Array element loop exhausted the fuel"
       | fuel + 1 =>
         match pv (skipWs rest) with
         | .error e => .error e
         | .ok (v, rest₂) => parseArrRestWith pv fuel (eAppend acc (.cons v .nil)) (skipWs rest₂))
    | _ => .error "Expecting comma delimiter"

/-- After `[` and leading whitespace. -/
def parseArrBodyWith (pv : List Char → Except String (Json × List Char))
    (fuel : Nat) (cs : List Char) : Except String (Json × List Char) :=
  match cs with
  | ']' :: rest => .ok (.arr .nil, rest)
  | _ =>
    match pv cs with
    | .error e => .error e
    | .ok (v, rest) => parseArrRestWith pv fuel (.cons v .nil) (skipWs rest)

/-- One JSON value, dispatching on the first character exactly as
CPython's `json.scanner._scan_once` does (a `null`/`true`/`false` prefix
that does not complete falls through to the number regex, which then
reports "Expecting value").  The fuel bounds nesting depth and container
length; `loads` supplies more than its input could ever need. -/
def parseValue : Nat → List Char → Except String (Json × List Char)
  | 0, _ => .error "Value nesting exhausted the fuel"
  | fuel + 1, cs =>
    match cs with
    | [] => .error "Expecting value"
    | c :: rest =>
      if c = '\"' then
        match parseStrBody rest with
        | .ok (s, r) => .ok (.str (String.mk s), r)
        | .error e => .error e
      else if c = '\x7b' then parseObjBodyWith (parseValue fuel) fuel (skipWs rest)
      else if c = '[' then parseArrBodyWith (parseValue fuel) fuel (skipWs rest)
      else if c = 'n' then
        match rest with
        | 'u' :: 'l' :: 'l' :: r => .ok (.null, r)
        | _ => parseNum (c :: rest)
      else if c = 't' then
        match rest with
        | 'r' :: 'u' :: 'e' :: r => .ok (.bool true, r)
        | _ => parseNum (c :: rest)
      else if c = 'f' then
        match rest with
        | 'a' :: 'l' :: 's' :: 'e' :: r => .ok (.bool false, r)
        | _ => parseNum (c :: rest)
      else parseNum (c :: rest)

instance {ε α : Type} [DecidableEq ε] [DecidableEq α] : DecidableEq (Except ε α) :=
  fun a b =>
    match a, b with
    | .ok x, .ok y =>
      if h : x = y then .isTrue (by rw [h]) else .isFalse (by simp [h])
    | .error e, .error f =>
      if h : e = f then .isTrue (by rw [h]) else .isFalse (by simp [h])
    | .ok _, .error _ => .isFalse (by simp)
    | .error _, .ok _ => .isFalse (by simp)

/-- `json.loads`: skip surrounding whitespace, read one value, reject
trailing input ("Extra data"). -/
def loads (s : String) : Except String Json :=
  match parseValue (s.length + 1) (skipWs s.data) with
  | .error e => .error e
  | .ok (j, rest) => if (skipWs rest).isEmpty then .ok j else .error "Extra data"

/-! ## The database

The two sqlite tables as lists of rows in rowid order (an `INSERT` appends;
an `UPDATE` leaves the row in place). -/

structure PlayerRow where
  id : String
  name : String
  specialties : String
deriving DecidableEq, Repr

structure StatsRow where
  player_id : String
  TSI : String
  salary : String
  fitness : String
  form : String
  skills : String
  date : String
  age : String
deriving DecidableEq, Repr

structure DB where
  players : List PlayerRow
  player_stats : List StatsRow
deriving DecidableEq, Repr

def emptyDB : DB := ⟨[], []⟩

/-! ## Save (`POST /players/{player_id}`)

The request body is the decoded JSON object (a `JsonMembers` chain: the
service reads it with `await request.json()`, so it is always a dict).
`today` stands for `datetime.now()`; each handler result also records how
many connections the handler opened and closed on the taken path. -/

/-- The pydantic `Player` model of the service. `date: Optional[str]`
carries no explicit default, which under pydantic v1 (the idiom this code
is written in) makes it optional with default `None`: an absent and a
`null` date are the same.  The seven plain fields are required strings. -/
structure Player where
  name : String
  age : String
  TSI : String
  salary : String
  specialties : String
  form : String
  fitness : String
  skills : JsonMembers
  date : Option String
deriving DecidableEq

def reqStr (body : JsonMembers) (key : String) : Except String String :=
  match mFind? key body with
  | some (.str s) => .ok s
  | some _ => .error ("validation error for Player: " ++ key ++ " is not a string")
  | none => .error ("validation error for Player: " ++ key ++ " field required")

def reqSkills (body : JsonMembers) : Except String JsonMembers :=
  match mFind? "skills" body with
  | some (.obj m) => .ok m
  | some _ => .error "validation error for Player: skills is not a mapping"
  | none => .error "validation error for Player: skills field required"

def reqDate (body : JsonMembers) : Except String (Option String) :=
  match mFind? "date" body with
  | none => .ok none
  | some .null => .ok none
  | some (.str s) => .ok (some s)
  | some _ => .error "validation error for Player: date is not a string"

/-- `Player(**player_data)`; an error stands for the `ValidationError`
caught by the handler's `except` clause (its exact text is pydantic's and
is not modelled verbatim). -/
def validatePlayer (body : JsonMembers) : Except String Player := do
  let name ← reqStr body "name"
  let age ← reqStr body "age"
  let TSI ← reqStr body "TSI"
  let salary ← reqStr body "salary"
  let specialties ← reqStr body "specialties"
  let form ← reqStr body "form"
  let fitness ← reqStr body "fitness"
  let skills ← reqSkills body
  let date ← reqDate body
  return ⟨name, age, TSI, salary, specialties, form, fitness, skills, date⟩

/-- Dict assignment `player_data["skills"] = ...`: replace in place,
append if absent. -/
def mSet (key : String) (v : Json) : JsonMembers → JsonMembers
  | .nil => .cons key v .nil
  | .cons k v' tl => if k = key then .cons k v tl else .cons k v' (mSet key v tl)

/-- Lines 91–95 of `server.py`: if the skills field holds a string, decode
it with `json.loads`; a decode failure becomes the reported
`Invalid JSON in skills: ...` error. -/
def decodeSkillsField (body : JsonMembers) : Except String JsonMembers :=
  match mFind? "skills" body with
  | some (.str s) =>
    (match loads s with
     | .ok j => .ok (mSet "skills" j body)
     | .error e => .error ("Invalid JSON in skills: " ++ e))
  | _ => .ok body

/-- Lines 100–103: parse `player.date` as `DD/MM/YYYY`; the bare `except`
catches both the `ValueError` of a malformed or invalid date and the
`TypeError` of `None`, substituting today's date in sortable form. -/
def resolveDate (d : Option String) (today : Date) : String :=
  match d with
  | some s =>
    (match strptimeDMY s with
     | some dt => strftimeISO dt
     | none => strftimeISO today)
  | none => strftimeISO today

/-- `INSERT INTO players ... ON CONFLICT(id) DO UPDATE SET name, specialties`:
the conflicting row is updated in place (same rowid), otherwise the new row
is appended. -/
def upsertPlayer (ps : List PlayerRow) (id name specialties : String) : List PlayerRow :=
  if ps.any (fun p => p.id = id) then
    ps.map (fun p => if p.id = id then ⟨p.id, name, specialties⟩ else p)
  else ps ++ [⟨id, name, specialties⟩]

inductive SaveResp where
  | message (s : String)
  | error (s : String)
deriving DecidableEq, Repr

structure SaveResult where
  resp : SaveResp
  db : DB
  opened : Nat
  closed : Nat
deriving DecidableEq, Repr

/-- The `save_player` handler.  The connection is opened only after skills
decoding and validation succeed; the `finally: if conn: conn.close()`
closes it on every path on which it was opened (no modelled operation after
the connect can raise, so the success path is the only opened path). -/
def save_player (player_id : String) (body : JsonMembers) (today : Date) (db : DB) :
    SaveResult :=
  match decodeSkillsField body with
  | .error e => ⟨.error e, db, 0, 0⟩
  | .ok body₂ =>
    match validatePlayer body₂ with
    | .error e => ⟨.error e, db, 0, 0⟩
    | .ok player =>
      let iso_date := resolveDate player.date today
      let players₂ := upsertPlayer db.players player_id player.name player.specialties
      let stats₂ := db.player_stats ++
        [⟨player_id, player.TSI, player.salary, player.fitness, player.form,
          dumps (.obj player.skills), iso_date, player.age⟩]
      ⟨.message ("✅ Player " ++ player.name ++ " saved successfully"),
       ⟨players₂, stats₂⟩, 1, 1⟩

/-! ## List (`GET /players`) -/

/-- One result row: the dict built from the joined columns, with `skills`
decoded back to a value and `date` reformatted. -/
structure OutRow where
  id : String
  name : String
  specialties : String
  age : String
  TSI : String
  salary : String
  fitness : String
  form : String
  skills : Json
  date : String
deriving DecidableEq

inductive ListResp where
  | rows (rs : List OutRow)
  | error (s : String)
  | exn (s : String)
deriving DecidableEq

/-- `exn` stands for an exception escaping the handler (only a
`json.loads` failure on a stored skills text can do so — impossible for
rows written by Save). -/
structure ListResult where
  resp : ListResp
  opened : Nat
  closed : Nat
deriving DecidableEq

/-- `FROM player_stats s JOIN players p ON p.id = s.player_id`. -/
def joinRows (db : DB) : List (StatsRow × PlayerRow) :=
  db.player_stats.flatMap fun s =>
    (db.players.filter fun p => p.id = s.player_id).map fun p => (s, p)

/-- The comparison behind `ORDER BY s.date DESC`, under sqlite's BINARY
collation (byte order; dates are ASCII, where it agrees with `String`'s
order). -/
def dateDescRel (a b : StatsRow × PlayerRow) : Prop := b.1.date ≤ a.1.date

instance : DecidableRel dateDescRel := fun a b =>
  inferInstanceAs (Decidable (b.1.date ≤ a.1.date))

instance : IsTotal (StatsRow × PlayerRow) dateDescRel :=
  ⟨fun a b => le_total b.1.date a.1.date⟩

instance : IsTrans (StatsRow × PlayerRow) dateDescRel :=
  ⟨fun _ _ _ h₁ h₂ => le_trans h₂ h₁⟩

/-- `ORDER BY s.date DESC`.  sqlite does not promise a tie order (the spec
calls it unstable); the model fixes the stable choice. -/
def sortByDateDesc (rows : List (StatsRow × PlayerRow)) : List (StatsRow × PlayerRow) :=
  rows.insertionSort dateDescRel

/-- The row loop's date reformatting, lines 186–189: `except: pass` leaves
the stored value untouched when it does not parse as `%Y-%m-%d`. -/
def outDate (stored : String) : String :=
  match strptimeISO stored with
  | some dt => strftimeDMY dt
  | none => stored

def outRow (r : StatsRow × PlayerRow) : Except String OutRow :=
  match loads r.1.skills with
  | .error e => .error e
  | .ok sk =>
      .ok ⟨r.2.id, r.2.name, r.2.specialties, r.1.age, r.1.TSI, r.1.salary,
           r.1.fitness, r.1.form, sk, outDate r.1.date⟩

def buildRows : List (StatsRow × PlayerRow) → Except String (List OutRow)
  | [] => .ok []
  | r :: tl =>
    match outRow r with
    | .error e => .error e
    | .ok o =>
      match buildRows tl with
      | .error e => .error e
      | .ok os => .ok (o :: os)

/-- The query, filtering and row conversion of `get_all_players` once the
date filter (if any) has been converted to sortable form. -/
def listQuery (pid isoDate : Option String) (db : DB) : ListResult :=
  let selected := (joinRows db).filter fun r =>
    (match pid with | some q => (r.2.id = q : Bool) | none => true) &&
    (match isoDate with | some d => (r.1.date = d : Bool) | none => true)
  match buildRows (sortByDateDesc selected) with
  | .ok os => ⟨.rows os, 1, 1⟩
  | .error e => ⟨.exn e, 1, 0⟩

/-- The `get_all_players` handler.  The connection is opened first thing;
`if player_id:` / `if date:` are Python truthiness tests, so an empty
string behaves like an absent parameter.  The malformed-date return on
line 173 leaves the function without reaching `conn.close()`. -/
def get_all_players (player_id date : Option String) (db : DB) : ListResult :=
  let pidT : Option String :=
    match player_id with
    | some q => if q = "" then none else some q
    | none => none
  match date with
  | some d =>
    if d = "" then listQuery pidT none db
    else
      match strptimeDMY d with
      | none => ⟨.error "Invalid date format. Use DD/MM/YYYY.", 1, 0⟩
      | some dt => listQuery pidT (some (strftimeISO dt)) db
  | none => listQuery pidT none db

/-! ## Auxiliary measures and predicates for the proofs -/

mutual

/-- Node count of a JSON value; a fuel allowance that dominates both the
nesting depth and every container length. -/
def jSizeJ : Json → Nat
  | .null => 1
  | .bool _ => 1
  | .num _ => 1
  | .str _ => 1
  | .arr xs => 1 + jSizeE xs
  | .obj xs => 1 + jSizeM xs

def jSizeE : JsonElems → Nat
  | .nil => 0
  | .cons h tl => 1 + jSizeJ h + jSizeE tl

def jSizeM : JsonMembers → Nat
  | .nil => 0
  | .cons _ v tl => 1 + jSizeJ v + jSizeM tl

end

def eCount : JsonElems → Nat
  | .nil => 0
  | .cons _ tl => 1 + eCount tl

def mCount : JsonMembers → Nat
  | .nil => 0
  | .cons _ _ tl => 1 + mCount tl

/-- What may follow a complete value in `dumps` output: nothing, or a
separator/closer.  Everything the number parser must not swallow. -/
def SafeFollow : List Char → Prop
  | [] => True
  | c :: _ => c = ',' ∨ c = ']' ∨ c = '\x7d'

/-- Heads of input that are not decimal digits (so a bounded digit take
stops there). -/
def NotDigitHead : List Char → Prop
  | [] => True
  | c :: _ => c.isDigit = false

/-- The `", "`-separated tail of a dumped element chain. -/
def eTailChars : JsonElems → List Char
  | .nil => []
  | .cons h tl => ',' :: ' ' :: dumpsJ h ++ eTailChars tl

/-- The `", "`-separated tail of a dumped member chain. -/
def mTailChars : JsonMembers → List Char
  | .nil => []
  | .cons k v tl =>
      ',' :: ' ' :: '\"' :: escList k.data ++ '\"' :: ':' :: ' ' :: dumpsJ v ++ mTailChars tl

/-- A character that can start `dumps` output: not whitespace and not a
separator/closer. -/
def SafeHead (c : Char) : Prop :=
  ¬(c = ' ') ∧ ¬(c = '\t') ∧ ¬(c = '\n') ∧ ¬(c = '\r') ∧
    ¬(c = ',') ∧ ¬(c = ']') ∧ ¬(c = '\x7d')

/-! ## `loads` produces only well-formed values (its objects are dedupped) -/

/-- All member values well-formed, keys unconstrained. -/
def wfVals : JsonMembers → Bool
  | .nil => true
  | .cons _ v tl => wfJ v && wfVals tl

/-! ## Save: characterisation and well-formedness plumbing -/

/-- The stats row a successful save appends (line 122–134 of `server.py`). -/
def mkStatsRow (player_id : String) (p : Player) (today : Date) : StatsRow :=
  ⟨player_id, p.TSI, p.salary, p.fitness, p.form, dumps (.obj p.skills),
   resolveDate p.date today, p.age⟩

/-- Steps 91–97 of the handler: skills decoding followed by model
validation. -/
def parseBody (body : JsonMembers) : Except String Player :=
  match decodeSkillsField body with
  | .error e => .error e
  | .ok body₂ => validatePlayer body₂

/-! ## Reachable stores and their invariants -/

/-- States reachable from a fresh store through the Save handler.  Every
request body is the decoding of the request's JSON text, hence
well-formed. -/
inductive Reachable : DB → Prop where
  | empty : Reachable emptyDB
  | save (pid : String) (body : JsonMembers) (today : Date) {db : DB}
      (hbody : wfM body = true) (hdb : Reachable db) :
      Reachable (save_player pid body today db).db

/-- The data invariants Save maintains: unique player identities, no
orphaned stats row, and every stored skills text is the dump of a
well-formed mapping. -/
def DBInv (db : DB) : Prop :=
  (db.players.map (fun p => p.id)).Nodup ∧
  (∀ s ∈ db.player_stats, ∃ p ∈ db.players, p.id = s.player_id) ∧
  (∀ s ∈ db.player_stats, ∃ m : JsonMembers, wfM m = true ∧ s.skills = dumps (.obj m))

/-! ## The List pipeline -/

/-- The output row for a joined pair whose stored skills text decodes
(`Json.null` is a dummy for the impossible branch). -/
def outRowWf (r : StatsRow × PlayerRow) : OutRow :=
  ⟨r.2.id, r.2.name, r.2.specialties, r.1.age, r.1.TSI, r.1.salary, r.1.fitness, r.1.form,
   match loads r.1.skills with | .ok j => j | .error _ => .null, outDate r.1.date⟩

def runSaves (pid : String) (reqs : List (JsonMembers × Date)) (db : DB) : DB :=
  reqs.foldl (fun acc r => (save_player pid r.1 r.2 acc).db) db

/-! ## Concrete request values used to instantiate the theorems -/

def skTest : JsonMembers := .cons "passing" (.num 7) (.cons "winger" (.str "8") .nil)

/-- A complete valid request body with the given name and date string. -/
def mkBody (nm dt : String) : JsonMembers :=
  .cons "name" (.str nm) (.cons "age" (.str "24") (.cons "TSI" (.str "1180")
    (.cons "salary" (.str "5000") (.cons "specialties" (.str "Technical")
      (.cons "form" (.str "7") (.cons "fitness" (.str "8")
        (.cons "skills" (.obj skTest) (.cons "date" (.str dt) .nil))))))))

/-- The `Player` value `mkBody nm dt` validates to. -/
def playerOf (nm dt : String) : Player :=
  ⟨nm, "24", "1180", "5000", "Technical", "7", "8", skTest, some dt⟩

def bodyTest : JsonMembers := mkBody "Dor" "05/06/2024"

def bodyTest2 : JsonMembers := mkBody "Ron" "06/06/2024"

/-- A body whose date is in the non-padded form Python's `strptime`
accepts. -/
def bodyLenient : JsonMembers := mkBody "Dor" "1/2/2024"

/-- A valid body with no date member at all. -/
def bodyNoDate : JsonMembers :=
  .cons "name" (.str "Dor") (.cons "age" (.str "24") (.cons "TSI" (.str "1180")
    (.cons "salary" (.str "5000") (.cons "specialties" (.str "Technical")
      (.cons "form" (.str "7") (.cons "fitness" (.str "8")
        (.cons "skills" (.obj skTest) .nil)))))))

def playerNoDate : Player :=
  ⟨"Dor", "24", "1180", "5000", "Technical", "7", "8", skTest, none⟩

/-- A body whose skills field holds broken encoded text. -/
def bodyBadSkills : JsonMembers :=
  .cons "name" (.str "Dor") (.cons "skills" (.str "\x7bnot valid json") .nil)

/-- A store holding one stats row whose player was never saved. -/
def dbOrphan : DB := ⟨[], [⟨"ghost", "1", "2", "3", "4", "null", "2024-01-01", "5"⟩]⟩

/-- The date of the first returned row, if any. -/
def firstRowDate : ListResp → Option String
  | .rows (r :: _) => some r.date
  | _ => none

/-! ## Shape lemmas for the List handler -/

def listSelect (pid iso : Option String) (db : DB) : List (StatsRow × PlayerRow) :=
  (joinRows db).filter fun r =>
    (match pid with | some q => (r.2.id = q : Bool) | none => true) &&
    (match iso with | some d => (r.1.date = d : Bool) | none => true)

/-- The `if player_id:` truthiness coercion of the List handler. -/
def gapPid : Option String → Option String
  | some q => if q = "" then none else some q
  | none => none

/-! ## Digit character lemmas -/

theorem digitChar_isDigit {k : Nat} (h : k < 10) : (Nat.digitChar k).isDigit = true := by
  interval_cases k <;> decide

theorem digitVal_digitChar {k : Nat} (h : k < 10) : digitVal (Nat.digitChar k) = k := by
  interval_cases k <;> decide

theorem hexVal?_digitChar {k : Nat} (h : k < 16) : hexVal? (Nat.digitChar k) = some k := by
  interval_cases k <;> decide

/-! ## Date format round-trip lemmas -/

theorem daysInMonth_le_31 (y m : Nat) : daysInMonth y m ≤ 31 := by
  unfold daysInMonth
  split <;> [split <;> omega; split <;> omega]

theorem parseDay_pad2 {d : Nat} (h1 : 1 ≤ d) (h2 : d ≤ 31) (rest : List Char) :
    parseDay ((pad2 d).data ++ rest) = some (d, rest) := by
  interval_cases d <;> rfl

theorem parseMonth_pad2 {m : Nat} (h1 : 1 ≤ m) (h2 : m ≤ 12) (rest : List Char) :
    parseMonth ((pad2 m).data ++ rest) = some (m, rest) := by
  interval_cases m <;> rfl

theorem parseYear4_cons (c₁ c₂ c₃ c₄ : Char) (rest : List Char) :
    parseYear4 (c₁ :: c₂ :: c₃ :: c₄ :: rest) =
      if c₁.isDigit ∧ c₂.isDigit ∧ c₃.isDigit ∧ c₄.isDigit then
        some (((digitVal c₁ * 10 + digitVal c₂) * 10 + digitVal c₃) * 10 + digitVal c₄,
          rest)
      else none := rfl

theorem parseYear4_yearChars {y : Nat} (h1 : 1000 ≤ y) (h2 : y ≤ 9999)
    (rest : List Char) :
    parseYear4 (yearChars y ++ rest) = some (y, rest) := by
  unfold yearChars
  rw [if_neg (by omega), if_neg (by omega), if_neg (by omega), if_pos (by omega)]
  simp only [List.cons_append, List.nil_append]
  rw [parseYear4_cons]
  rw [if_pos ⟨digitChar_isDigit (by omega), digitChar_isDigit (by omega),
    digitChar_isDigit (by omega), digitChar_isDigit (by omega)⟩]
  rw [digitVal_digitChar (by omega), digitVal_digitChar (by omega),
    digitVal_digitChar (by omega), digitVal_digitChar (by omega)]
  simp only [Option.some.injEq, Prod.mk.injEq]
  exact ⟨by omega, trivial⟩

theorem parseYear4_dash2 (c₁ : Char) (rest : List Char) :
    parseYear4 (c₁ :: '-' :: rest) = none := by
  cases rest with
  | nil => rfl
  | cons a tl =>
    cases tl with
    | nil => rfl
    | cons b tl₂ =>
      rw [parseYear4_cons]
      exact if_neg (fun hc => absurd hc.2.1 (by decide))

theorem parseYear4_dash3 (c₁ c₂ : Char) (rest : List Char) :
    parseYear4 (c₁ :: c₂ :: '-' :: rest) = none := by
  cases rest with
  | nil => rfl
  | cons a tl =>
    rw [parseYear4_cons]
    exact if_neg (fun hc => absurd hc.2.2.1 (by decide))

theorem parseYear4_dash4 (c₁ c₂ c₃ : Char) (rest : List Char) :
    parseYear4 (c₁ :: c₂ :: c₃ :: '-' :: rest) = none := by
  rw [parseYear4_cons]
  exact if_neg (fun hc => absurd hc.2.2.2 (by decide))

theorem Date.valid_bounds {dt : Date} (h : dt.valid = true) :
    1 ≤ dt.year ∧ dt.year ≤ 9999 ∧ 1 ≤ dt.month ∧ dt.month ≤ 12 ∧
      1 ≤ dt.day ∧ dt.day ≤ 31 := by
  have h31 := daysInMonth_le_31 dt.year dt.month
  simp [Date.valid, validDate] at h
  omega

theorem parseYear4_yearChars_nil {y : Nat} (h1 : 1000 ≤ y) (h2 : y ≤ 9999) :
    parseYear4 (yearChars y) = some (y, []) := by
  have h := parseYear4_yearChars h1 h2 []
  simpa using h

theorem parseDay_pad2_nil {d : Nat} (h1 : 1 ≤ d) (h2 : d ≤ 31) :
    parseDay (pad2 d).data = some (d, []) := by
  have h := parseDay_pad2 h1 h2 []
  simpa using h

theorem strftimeISO_data (dt : Date) :
    (strftimeISO dt).toList =
      yearChars dt.year ++ ['-'] ++ (pad2 dt.month).data ++ ['-'] ++
        (pad2 dt.day).data := rfl

theorem strftimeDMY_data (dt : Date) :
    (strftimeDMY dt).toList =
      (pad2 dt.day).data ++ ['/'] ++ (pad2 dt.month).data ++ ['/'] ++
        yearChars dt.year := rfl

/-- Round trip through the external form; a year of four printed digits
(1000..9999) is needed, since glibc prints smaller years unpadded while
`%Y` re-parses only four digits. -/
theorem strptimeDMY_strftimeDMY {dt : Date} (h : dt.valid = true)
    (hy : 1000 ≤ dt.year) :
    strptimeDMY (strftimeDMY dt) = some dt := by
  obtain ⟨hy1, hy2, hm1, hm2, hd1, hd2⟩ := Date.valid_bounds h
  have hvd : validDate dt.year dt.month dt.day = true := h
  unfold strptimeDMY
  rw [strftimeDMY_data]
  simp only [List.append_assoc, List.singleton_append]
  rw [parseDay_pad2 hd1 hd2]
  simp [parseMonth_pad2 hm1 hm2, parseYear4_yearChars_nil hy hy2, hvd]

/-- Round trip through the internal sortable form, for years that print as
four digits. -/
theorem strptimeISO_strftimeISO {dt : Date} (h : dt.valid = true)
    (hy : 1000 ≤ dt.year) :
    strptimeISO (strftimeISO dt) = some dt := by
  obtain ⟨hy1, hy2, hm1, hm2, hd1, hd2⟩ := Date.valid_bounds h
  have hvd : validDate dt.year dt.month dt.day = true := h
  unfold strptimeISO
  rw [strftimeISO_data]
  simp only [List.append_assoc, List.singleton_append]
  rw [parseYear4_yearChars hy hy2]
  simp [parseMonth_pad2 hm1 hm2, parseDay_pad2_nil hd1 hd2, hvd]

/-- A stored year below 1000 was written unpadded, so the row loop's
re-parse with `%Y-%m-%d` fails. -/
theorem strptimeISO_strftimeISO_small {dt : Date} (h1 : dt.year < 1000) :
    strptimeISO (strftimeISO dt) = none := by
  unfold strptimeISO
  rw [strftimeISO_data]
  unfold yearChars
  by_cases h10 : dt.year < 10
  · rw [if_pos h10]
    simp only [List.append_assoc, List.singleton_append, List.cons_append,
      List.nil_append]
    rw [parseYear4_dash2]
  · by_cases h100 : dt.year < 100
    · rw [if_neg h10, if_pos h100]
      simp only [List.append_assoc, List.singleton_append, List.cons_append,
        List.nil_append]
      rw [parseYear4_dash3]
    · rw [if_neg h10, if_neg h100, if_pos h1]
      simp only [List.append_assoc, List.singleton_append, List.cons_append,
        List.nil_append]
      rw [parseYear4_dash4]

/-! ## Number round-trip lemmas -/

theorem natDigitsAux_stable : ∀ n f₁ f₂, n ≤ f₁ → n ≤ f₂ →
    natDigitsAux f₁ n = natDigitsAux f₂ n := by
  intro n
  induction n using Nat.strong_induction_on with
  | _ n ih =>
    intro f₁ f₂ h₁ h₂
    by_cases hn : n < 10
    · cases f₁ <;> cases f₂ <;>
        simp [natDigitsAux, hn, Nat.mod_eq_of_lt hn]
    · cases f₁ with
      | zero => omega
      | succ g₁ =>
        cases f₂ with
        | zero => omega
        | succ g₂ =>
          simp only [natDigitsAux, if_neg hn]
          rw [ih (n / 10) (by omega) g₁ g₂ (by omega) (by omega)]

theorem natDigits_unfold (n : Nat) :
    natDigits n = if n < 10 then [Nat.digitChar n]
      else natDigits (n / 10) ++ [Nat.digitChar (n % 10)] := by
  by_cases hn : n < 10
  · cases n with
    | zero => simp [natDigits, natDigitsAux]
    | succ m => simp [natDigits, natDigitsAux, hn]
  · match n, hn with
    | m + 1, hn =>
      simp only [natDigits, natDigitsAux, if_neg hn]
      rw [natDigitsAux_stable ((m + 1) / 10) m ((m + 1) / 10) (by omega) (by omega)]

theorem natDigits_all_digits : ∀ n, ∀ c ∈ natDigits n, c.isDigit = true := by
  intro n
  induction n using Nat.strong_induction_on with
  | _ n ih =>
    rw [natDigits_unfold]
    by_cases hn : n < 10
    · simp [hn, digitChar_isDigit]
    · simp only [if_neg hn, List.mem_append, List.mem_singleton]
      rintro c (hc | rfl)
      · exact ih (n / 10) (by omega) c hc
      · exact digitChar_isDigit (by omega)

theorem natDigits_ne_nil (n : Nat) : natDigits n ≠ [] := by
  rw [natDigits_unfold]
  by_cases hn : n < 10 <;> simp [hn]

theorem natDigits_foldl : ∀ n acc, List.foldl (fun a c => a * 10 + digitVal c) acc
    (natDigits n) = acc * 10 ^ (natDigits n).length + n := by
  intro n
  induction n using Nat.strong_induction_on with
  | _ n ih =>
    intro acc
    rw [natDigits_unfold]
    by_cases hn : n < 10
    · simp [hn, digitVal_digitChar hn]
    · simp only [if_neg hn, List.foldl_append, List.foldl_cons, List.foldl_nil,
        List.length_append, List.length_cons, List.length_nil]
      rw [ih (n / 10) (by omega)]
      rw [digitVal_digitChar (by omega : n % 10 < 10)]
      have : acc * 10 ^ ((natDigits (n / 10)).length + (0 + 1)) =
          acc * 10 ^ (natDigits (n / 10)).length * 10 := by ring
      rw [this]
      omega

theorem natDigits_head_ne_zero : ∀ n, 1 ≤ n → ∀ c cs, natDigits n = c :: cs →
    ¬(c = '0') := by
  intro n
  induction n using Nat.strong_induction_on with
  | _ n ih =>
    intro hn c cs heq
    rw [natDigits_unfold] at heq
    by_cases h10 : n < 10
    · rw [if_pos h10] at heq
      cases heq
      interval_cases n <;> decide
    · rw [if_neg h10] at heq
      obtain ⟨c', cs', hsplit⟩ : ∃ c' cs', natDigits (n / 10) = c' :: cs' := by
        match hsrc : natDigits (n / 10) with
        | [] => exact absurd hsrc (natDigits_ne_nil _)
        | c' :: cs' => exact ⟨c', cs', rfl⟩
      rw [hsplit] at heq
      simp only [List.cons_append, List.cons.injEq] at heq
      exact heq.1 ▸ ih (n / 10) (by omega) (by omega) c' cs' hsplit

theorem isDigit_toNat_bounds {c : Char} (h : c.isDigit = true) :
    48 ≤ c.toNat ∧ c.toNat ≤ 57 := by
  simp only [Char.isDigit, decide_eq_true_eq, Bool.and_eq_true] at h
  obtain ⟨h₁, h₂⟩ := h
  exact ⟨h₁, h₂⟩

theorem safeFollow_notDigitHead {rest : List Char} (h : SafeFollow rest) :
    NotDigitHead rest := by
  cases rest with
  | nil => trivial
  | cons c tl =>
    simp only [NotDigitHead]
    rcases h with h | h | h <;> subst h <;> decide

theorem takeAllDigits_append : ∀ (ds : List Char) (acc : Nat) (rest : List Char),
    (∀ c ∈ ds, c.isDigit = true) → NotDigitHead rest →
    takeAllDigits acc (ds ++ rest) =
      (List.foldl (fun a c => a * 10 + digitVal c) acc ds, rest) := by
  intro ds
  induction ds with
  | nil =>
    intro acc rest _ hrest
    cases rest with
    | nil => rfl
    | cons c tl =>
      simp only [NotDigitHead] at hrest
      simp [takeAllDigits, hrest]
  | cons c tl ih =>
    intro acc rest hds hrest
    have hc : c.isDigit = true := hds c (by simp)
    have hstep : takeAllDigits acc ((c :: tl) ++ rest) =
        takeAllDigits (acc * 10 + digitVal c) (tl ++ rest) := by
      simp [takeAllDigits, hc]
    rw [hstep, ih _ rest (fun x hx => hds x (by simp [hx])) hrest]
    simp

theorem finishNum_safe {rest : List Char} (v : Int) (h : SafeFollow rest) :
    finishNum v rest = .ok (.num v, rest) := by
  cases rest with
  | nil => rfl
  | cons c tl => rcases h with h | h | h <;> subst h <;> rfl

theorem isDigit_ne_minus {c : Char} (h : c.isDigit = true) : ¬(c = '-') := by
  intro heq; subst heq; exact absurd h (by decide)

theorem parseNumFrom_natDigits (n : Nat) (hn : 1 ≤ n) (neg : Bool) (rest : List Char)
    (hrest : SafeFollow rest) :
    parseNumFrom neg (natDigits n ++ rest) =
      .ok (.num (if neg then -(n : Int) else (n : Int)), rest) := by
  obtain ⟨c, cs, hsplit⟩ : ∃ c cs, natDigits n = c :: cs := by
    match hsrc : natDigits n with
    | [] => exact absurd hsrc (natDigits_ne_nil _)
    | c :: cs => exact ⟨c, cs, rfl⟩
  have hcmem : c ∈ natDigits n := by rw [hsplit]; simp
  have hc : c.isDigit = true := natDigits_all_digits n c hcmem
  have hc0 : ¬(c = '0') := natDigits_head_ne_zero n hn c cs hsplit
  have hfold := natDigits_foldl n 0
  rw [hsplit] at hfold
  simp only [List.foldl_cons, Nat.zero_mul, Nat.zero_add] at hfold
  rw [hsplit, List.cons_append]
  rw [show parseNumFrom neg (c :: (cs ++ rest)) =
      finishNum (if neg then -((takeAllDigits (digitVal c) (cs ++ rest)).1 : Int)
        else ((takeAllDigits (digitVal c) (cs ++ rest)).1 : Int))
        (takeAllDigits (digitVal c) (cs ++ rest)).2 from by
    simp [parseNumFrom, hc0, hc]]
  rw [takeAllDigits_append cs (digitVal c) rest
    (fun x hx => natDigits_all_digits n x (by rw [hsplit]; simp [hx]))
    (safeFollow_notDigitHead hrest)]
  simp only [hfold, Nat.zero_pow, Nat.zero_mul, Nat.zero_add]
  exact finishNum_safe _ hrest

theorem parseNum_intChars (i : Int) (rest : List Char) (hrest : SafeFollow rest) :
    parseNum (intChars i ++ rest) = .ok (.num i, rest) := by
  cases i with
  | ofNat n =>
    cases n with
    | zero =>
      have h0 : natDigits 0 = ['0'] := rfl
      show parseNum (natDigits 0 ++ rest) = _
      rw [h0, List.cons_append, List.nil_append]
      rw [show parseNum ('0' :: rest) = parseNumFrom false ('0' :: rest) from by
        simp [parseNum]]
      rw [show parseNumFrom false ('0' :: rest) = finishNum 0 rest from by
        simp [parseNumFrom]]
      rw [finishNum_safe _ hrest]
      rfl
    | succ m =>
      show parseNum (natDigits (m + 1) ++ rest) = _
      obtain ⟨c, cs, hsplit⟩ : ∃ c cs, natDigits (m + 1) = c :: cs := by
        match hsrc : natDigits (m + 1) with
        | [] => exact absurd hsrc (natDigits_ne_nil _)
        | c :: cs => exact ⟨c, cs, rfl⟩
      have hc : c.isDigit = true := natDigits_all_digits _ c (by rw [hsplit]; simp)
      have hdisp : parseNum (natDigits (m + 1) ++ rest) =
          parseNumFrom false (natDigits (m + 1) ++ rest) := by
        rw [hsplit, List.cons_append]
        simp [parseNum, isDigit_ne_minus hc]
      rw [hdisp, parseNumFrom_natDigits (m + 1) (by omega) false rest hrest]
      simp
  | negSucc m =>
    show parseNum ('-' :: natDigits (m + 1) ++ rest) = _
    rw [List.cons_append]
    rw [show parseNum ('-' :: (natDigits (m + 1) ++ rest)) =
        parseNumFrom true (natDigits (m + 1) ++ rest) from by simp [parseNum]]
    rw [parseNumFrom_natDigits (m + 1) (by omega) true rest hrest]
    rw [Int.negSucc_eq]
    simp

/-! ## String escape round-trip lemmas -/

theorem parseStrBody_uEsc {t : Nat} (ht : t < 55296) (tail : List Char) :
    parseStrBody (uEsc t ++ tail) =
      match parseStrBody tail with
      | .ok (s, r) => .ok (Char.ofNat t :: s, r)
      | .error e => .error e := by
  have h₃ : t / 4096 % 16 < 16 := Nat.mod_lt _ (by omega)
  have h₂ : t / 256 % 16 < 16 := Nat.mod_lt _ (by omega)
  have h₁ : t / 16 % 16 < 16 := Nat.mod_lt _ (by omega)
  have h₀ : t % 16 < 16 := Nat.mod_lt _ (by omega)
  have hcomb : ((t / 4096 % 16 * 16 + t / 256 % 16) * 16 + t / 16 % 16) * 16 + t % 16
      = t := by omega
  simp only [uEsc, List.cons_append, List.nil_append]
  simp only [parseStrBody, hexVal?_digitChar h₃, hexVal?_digitChar h₂,
    hexVal?_digitChar h₁, hexVal?_digitChar h₀]
  rw [if_pos (Or.inl (by omega : ((t / 4096 % 16 * 16 + t / 256 % 16) * 16 +
    t / 16 % 16) * 16 + t % 16 < 55296))]
  rw [hcomb]

theorem parseStrBody_escChar (c : Char) (tail : List Char) :
    parseStrBody (escChar c ++ tail) =
      match parseStrBody tail with
      | .ok (s, r) => .ok (c :: s, r)
      | .error e => .error e := by
  by_cases h1 : c = '\"'
  · subst h1; simp [escChar, parseStrBody, unescapeChar?]
  by_cases h2 : c = '\\'
  · subst h2; simp [escChar, parseStrBody, unescapeChar?]
  by_cases h3 : c = '\n'
  · subst h3; simp [escChar, parseStrBody, unescapeChar?]
  by_cases h4 : c = '\t'
  · subst h4; simp [escChar, parseStrBody, unescapeChar?]
  by_cases h5 : c = '\r'
  · subst h5; simp [escChar, parseStrBody, unescapeChar?]
  by_cases h6 : c.toNat = 8
  · have hc : c = Char.ofNat 8 := by rw [← h6, Char.ofNat_toNat]
    subst hc
    simp [escChar, parseStrBody, unescapeChar?]
  by_cases h7 : c.toNat = 12
  · have hc : c = Char.ofNat 12 := by rw [← h7, Char.ofNat_toNat]
    subst hc
    simp [escChar, parseStrBody, unescapeChar?]
  by_cases h8 : c.toNat < 32
  · have hesc : escChar c = uEsc c.toNat := by
      simp only [escChar, if_neg h1, if_neg h2, if_neg h3, if_neg h4, if_neg h5,
        if_neg h6, if_neg h7, if_pos h8]
    rw [hesc, parseStrBody_uEsc (by omega : c.toNat < 55296) tail, Char.ofNat_toNat]
  · have hesc : escChar c = [c] := by
      simp only [escChar, if_neg h1, if_neg h2, if_neg h3, if_neg h4, if_neg h5,
        if_neg h6, if_neg h7, if_neg h8]
    rw [hesc, List.cons_append, List.nil_append]
    simp [parseStrBody, h1, h2, h8]

theorem parseStrBody_escList (s : List Char) (rest : List Char) :
    parseStrBody (escList s ++ '\"' :: rest) = .ok (s, rest) := by
  induction s with
  | nil => simp [escList, parseStrBody]
  | cons c cs ih =>
    simp only [escList, List.append_assoc]
    rw [parseStrBody_escChar c (escList cs ++ '\"' :: rest), ih]

/-! ## Heads of dumped values, whitespace, chain lemmas -/

theorem mk_data (s : String) : String.mk s.data = s := rfl

theorem isDigit_safeHead {c : Char} (h : c.isDigit = true) : SafeHead c := by
  refine ⟨?_, ?_, ?_, ?_, ?_, ?_, ?_⟩ <;>
    exact fun heq => by subst heq; exact absurd h (by decide)

theorem intChars_head (i : Int) :
    ∃ c cs, intChars i = c :: cs ∧ SafeHead c ∧ (c = '-' ∨ c.isDigit = true) := by
  have hnat : ∀ n : Nat, ∃ c cs, natDigits n = c :: cs ∧ SafeHead c ∧ c.isDigit = true := by
    intro n
    match hsrc : natDigits n with
    | [] => exact absurd hsrc (natDigits_ne_nil _)
    | c :: cs =>
      have hd : c.isDigit = true := natDigits_all_digits n c (by rw [hsrc]; simp)
      exact ⟨c, cs, rfl, isDigit_safeHead hd, hd⟩
  cases i with
  | ofNat n =>
    obtain ⟨c, cs, h, hs, hd⟩ := hnat n
    exact ⟨c, cs, h, hs, Or.inr hd⟩
  | negSucc m =>
    exact ⟨'-', natDigits (m + 1), rfl,
      by refine ⟨?_, ?_, ?_, ?_, ?_, ?_, ?_⟩ <;> decide, Or.inl rfl⟩

theorem dumpsJ_head (j : Json) : ∃ c cs, dumpsJ j = c :: cs ∧ SafeHead c := by
  cases j with
  | null => exact ⟨'n', _, rfl, by refine ⟨?_, ?_, ?_, ?_, ?_, ?_, ?_⟩ <;> decide⟩
  | bool b =>
    cases b with
    | true => exact ⟨'t', _, rfl, by refine ⟨?_, ?_, ?_, ?_, ?_, ?_, ?_⟩ <;> decide⟩
    | false => exact ⟨'f', _, rfl, by refine ⟨?_, ?_, ?_, ?_, ?_, ?_, ?_⟩ <;> decide⟩
  | num n =>
    obtain ⟨c, cs, h, hs, _⟩ := intChars_head n
    exact ⟨c, cs, by simp [dumpsJ, h], hs⟩
  | str s => exact ⟨'\"', _, rfl, by refine ⟨?_, ?_, ?_, ?_, ?_, ?_, ?_⟩ <;> decide⟩
  | arr xs => exact ⟨'[', _, rfl, by refine ⟨?_, ?_, ?_, ?_, ?_, ?_, ?_⟩ <;> decide⟩
  | obj xs => exact ⟨'\x7b', _, rfl, by refine ⟨?_, ?_, ?_, ?_, ?_, ?_, ?_⟩ <;> decide⟩

theorem skipWs_cons_of_safeHead {c : Char} (h : SafeHead c) (l : List Char) :
    skipWs (c :: l) = c :: l := by
  obtain ⟨h1, h2, h3, h4, _, _, _⟩ := h
  simp [skipWs, h1, h2, h3, h4]

theorem skipWs_space (l : List Char) : skipWs (' ' :: l) = skipWs l := by
  simp [skipWs]

theorem skipWs_dumpsJ (j : Json) (rest : List Char) :
    skipWs (dumpsJ j ++ rest) = dumpsJ j ++ rest := by
  obtain ⟨c, cs, h, hs⟩ := dumpsJ_head j
  rw [h, List.cons_append, skipWs_cons_of_safeHead hs]

theorem safeFollow_eTail (tl : JsonElems) (rest : List Char) :
    SafeFollow (eTailChars tl ++ ']' :: rest) := by
  cases tl with
  | nil => exact Or.inr (Or.inl rfl)
  | cons h t => exact Or.inl rfl

theorem safeFollow_mTail (tl : JsonMembers) (rest : List Char) :
    SafeFollow (mTailChars tl ++ '\x7d' :: rest) := by
  cases tl with
  | nil => exact Or.inr (Or.inr rfl)
  | cons k v t => exact Or.inl rfl

theorem skipWs_eTail (tl : JsonElems) (rest : List Char) :
    skipWs (eTailChars tl ++ ']' :: rest) = eTailChars tl ++ ']' :: rest := by
  cases tl with
  | nil => simp [eTailChars, skipWs]
  | cons h t => simp [eTailChars, skipWs]

theorem skipWs_mTail (tl : JsonMembers) (rest : List Char) :
    skipWs (mTailChars tl ++ '\x7d' :: rest) = mTailChars tl ++ '\x7d' :: rest := by
  cases tl with
  | nil => simp [mTailChars, skipWs]
  | cons k v t => simp [mTailChars, skipWs]

theorem eAppend_snoc : ∀ (a : JsonElems) (h : Json) (tl : JsonElems),
    eAppend (eAppend a (.cons h .nil)) tl = eAppend a (.cons h tl)
  | .nil, h, tl => by simp [eAppend]
  | .cons x xs, h, tl => by simp [eAppend, eAppend_snoc xs h tl]

theorem mAppend_snoc : ∀ (a : JsonMembers) (k : String) (v : Json) (tl : JsonMembers),
    mAppend (mAppend a (.cons k v .nil)) tl = mAppend a (.cons k v tl)
  | .nil, k, v, tl => by simp [mAppend]
  | .cons x xv xs, k, v, tl => by simp [mAppend, mAppend_snoc xs k v tl]

theorem dumpsE_cons : ∀ (h : Json) (tl : JsonElems),
    dumpsE (.cons h tl) = dumpsJ h ++ eTailChars tl
  | h, .nil => by simp [dumpsE, eTailChars]
  | h, .cons h₂ tl₂ => by simp [dumpsE, eTailChars, dumpsE_cons h₂ tl₂]

theorem dumpsM_cons : ∀ (k : String) (v : Json) (tl : JsonMembers),
    dumpsM (.cons k v tl) =
      '\"' :: escList k.data ++ '\"' :: ':' :: ' ' :: dumpsJ v ++ mTailChars tl
  | k, v, .nil => by simp [dumpsM, mTailChars]
  | k, v, .cons k₂ v₂ tl₂ => by simp [dumpsM, mTailChars, dumpsM_cons k₂ v₂ tl₂]

/-! ## Duplicate-key normalisation is the identity on well-formed chains -/

theorem mFresh_lastVal : ∀ {key : String} {tl : JsonMembers} (v : Json),
    mFresh key tl = true → mLastVal key v tl = v
  | _, .nil, _, _ => rfl
  | key, .cons k v' t, v, h => by
    by_cases hk : k = key
    · simp [mFresh, hk] at h
    · simp only [mFresh, if_neg hk] at h
      simp [mLastVal, hk, mFresh_lastVal v h]

theorem mFresh_remove : ∀ {key : String} {tl : JsonMembers},
    mFresh key tl = true → mRemove key tl = tl
  | _, .nil, _ => rfl
  | key, .cons k v t, h => by
    by_cases hk : k = key
    · simp [mFresh, hk] at h
    · simp only [mFresh, if_neg hk] at h
      simp [mRemove, hk, mFresh_remove h]

theorem mDedupF_of_wf : ∀ (tl : JsonMembers) (fuel : Nat), mLen tl ≤ fuel →
    wfM tl = true → mDedupF fuel tl = tl
  | .nil, fuel, _, _ => by cases fuel <;> rfl
  | .cons k v t, fuel, hlen, hwf => by
    simp only [wfM, Bool.and_eq_true] at hwf
    obtain ⟨⟨hfresh, _⟩, hwft⟩ := hwf
    cases fuel with
    | zero => simp [mLen] at hlen
    | succ f =>
      simp only [mDedupF]
      rw [mFresh_lastVal v hfresh, mFresh_remove hfresh,
        mDedupF_of_wf t f (by simp [mLen] at hlen; omega) hwft]

theorem mDedup_of_wf {tl : JsonMembers} (hwf : wfM tl = true) : mDedup tl = tl :=
  mDedupF_of_wf tl (mLen tl) le_rfl hwf

theorem intChars_dispatch {c : Char} (h : c = '-' ∨ c.isDigit = true) :
    ¬(c = '\"') ∧ ¬(c = '\x7b') ∧ ¬(c = '[') ∧ ¬(c = 'n') ∧ ¬(c = 't') ∧ ¬(c = 'f') := by
  rcases h with h | h
  · subst h; refine ⟨?_, ?_, ?_, ?_, ?_, ?_⟩ <;> decide
  · refine ⟨?_, ?_, ?_, ?_, ?_, ?_⟩ <;>
      exact fun heq => by subst heq; exact absurd h (by decide)

theorem eAppend_nil : ∀ (a : JsonElems), eAppend a .nil = a
  | .nil => rfl
  | .cons h tl => by simp [eAppend, eAppend_nil tl]

theorem mAppend_nil : ∀ (a : JsonMembers), mAppend a .nil = a
  | .nil => rfl
  | .cons k v tl => by simp [mAppend, mAppend_nil tl]

theorem eCount_le_jSizeE : ∀ (tl : JsonElems), eCount tl ≤ jSizeE tl
  | .nil => le_rfl
  | .cons h tl => by
    have := eCount_le_jSizeE tl
    simp [eCount, jSizeE]
    omega

theorem mCount_le_jSizeM : ∀ (tl : JsonMembers), mCount tl ≤ jSizeM tl
  | .nil => le_rfl
  | .cons k v tl => by
    have := mCount_le_jSizeM tl
    simp [mCount, jSizeM]
    omega

theorem parseArrBodyWith_cons {pv : List Char → Except String (Json × List Char)}
    {fuel : Nat} {c : Char} {cs : List Char} (h : ¬(c = ']')) :
    parseArrBodyWith pv fuel (c :: cs) =
      match pv (c :: cs) with
      | .error e => .error e
      | .ok (v, rest) => parseArrRestWith pv fuel (.cons v .nil) (skipWs rest) := by
  simp [parseArrBodyWith, h]

theorem parseObjBodyWith_cons {pv : List Char → Except String (Json × List Char)}
    {fuel : Nat} {c : Char} {cs : List Char} (h : ¬(c = '\x7d')) :
    parseObjBodyWith pv fuel (c :: cs) =
      match parseMemberWith pv (c :: cs) with
      | .error e => .error e
      | .ok (k, v, rest) => parseObjRestWith pv fuel (.cons k v .nil) (skipWs rest) := by
  simp [parseObjBodyWith, h]

theorem skipWs_colon (l : List Char) : skipWs (':' :: l) = ':' :: l := by simp [skipWs]

/-! ## `loads` inverts `dumps` -/

mutual

theorem RT_val : ∀ (j : Json) (fuel : Nat) (rest : List Char), wfJ j = true →
    jSizeJ j ≤ fuel → SafeFollow rest →
    parseValue fuel (dumpsJ j ++ rest) = .ok (j, rest)
  | .null, fuel, rest, _, hsz, _ => by
    cases fuel with
    | zero => exact absurd hsz (by simp [jSizeJ])
    | succ f => simp [dumpsJ, parseValue, List.cons_append]
  | .bool true, fuel, rest, _, hsz, _ => by
    cases fuel with
    | zero => exact absurd hsz (by simp [jSizeJ])
    | succ f => simp [dumpsJ, parseValue, List.cons_append]
  | .bool false, fuel, rest, _, hsz, _ => by
    cases fuel with
    | zero => exact absurd hsz (by simp [jSizeJ])
    | succ f => simp [dumpsJ, parseValue, List.cons_append]
  | .num n, fuel, rest, _, hsz, hsf => by
    cases fuel with
    | zero => exact absurd hsz (by simp [jSizeJ])
    | succ f =>
      obtain ⟨c, cs, hsplit, _, hdig⟩ := intChars_head n
      obtain ⟨d1, d2, d3, d4, d5, d6⟩ := intChars_dispatch hdig
      show parseValue (f + 1) (intChars n ++ rest) = _
      rw [hsplit, List.cons_append]
      rw [show parseValue (f + 1) (c :: (cs ++ rest)) = parseNum (c :: (cs ++ rest)) from by
        simp [parseValue, d1, d2, d3, d4, d5, d6]]
      rw [← List.cons_append, ← hsplit, parseNum_intChars n rest hsf]
  | .str s, fuel, rest, _, hsz, _ => by
    cases fuel with
    | zero => exact absurd hsz (by simp [jSizeJ])
    | succ f =>
      show parseValue (f + 1) (('\"' :: escList s.data ++ ['\"']) ++ rest) = _
      simp only [List.cons_append, List.append_assoc, List.singleton_append]
      simp [parseValue, parseStrBody_escList, mk_data]
  | .arr .nil, fuel, rest, _, hsz, _ => by
    cases fuel with
    | zero => exact absurd hsz (by simp [jSizeJ, jSizeE])
    | succ f =>
      show parseValue (f + 1) (('[' :: dumpsE .nil ++ [']']) ++ rest) = _
      simp [dumpsE, parseValue, skipWs, parseArrBodyWith]
  | .arr (.cons h tl), fuel, rest, hwf, hsz, hsf => by
    cases fuel with
    | zero => exact absurd hsz (by simp [jSizeJ, jSizeE])
    | succ f =>
      have hsz' : jSizeJ (.arr (.cons h tl)) ≤ f + 1 := hsz
      simp only [jSizeJ, jSizeE] at hsz'
      have hwf' : wfJ h = true ∧ wfE tl = true := by
        have h0 : wfJ (.arr (.cons h tl)) = true := hwf
        simpa [wfJ, wfE, Bool.and_eq_true] using h0
      obtain ⟨c, cs, hhead, hsafe⟩ := dumpsJ_head h
      show parseValue (f + 1) (('[' :: dumpsE (.cons h tl) ++ [']']) ++ rest) = _
      rw [dumpsE_cons]
      simp only [List.cons_append, List.append_assoc, List.singleton_append, List.nil_append]
      rw [show parseValue (f + 1) ('[' :: (dumpsJ h ++ (eTailChars tl ++ ']' :: rest))) =
          parseArrBodyWith (parseValue f) f
            (skipWs (dumpsJ h ++ (eTailChars tl ++ ']' :: rest))) from by
        simp [parseValue]]
      rw [skipWs_dumpsJ]
      rw [hhead, List.cons_append,
        parseArrBodyWith_cons (fun heq => hsafe.2.2.2.2.2.1 heq),
        ← List.cons_append, ← hhead]
      rw [RT_val h f (eTailChars tl ++ ']' :: rest) hwf'.1 (by omega)
        (safeFollow_eTail tl rest)]
      simp only [skipWs_eTail]
      rw [RT_elems tl (.cons h .nil) f f rest hwf'.2 (by omega)
        (le_trans (eCount_le_jSizeE tl) (by omega)) hsf]
      simp [eAppend]
  | .obj .nil, fuel, rest, _, hsz, _ => by
    cases fuel with
    | zero => exact absurd hsz (by simp [jSizeJ, jSizeM])
    | succ f =>
      show parseValue (f + 1) (('\x7b' :: dumpsM .nil ++ ['\x7d']) ++ rest) = _
      simp [dumpsM, parseValue, skipWs, parseObjBodyWith]
  | .obj (.cons k v tlm), fuel, rest, hwf, hsz, hsf => by
    cases fuel with
    | zero => exact absurd hsz (by simp [jSizeJ, jSizeM])
    | succ f =>
      have hsz' : jSizeJ (.obj (.cons k v tlm)) ≤ f + 1 := hsz
      simp only [jSizeJ, jSizeM] at hsz'
      have hwfm : wfM (.cons k v tlm) = true := hwf
      have hwf' : mFresh k tlm = true ∧ wfJ v = true ∧ wfM tlm = true := by
        simpa [wfM, Bool.and_eq_true, and_assoc] using hwfm
      show parseValue (f + 1) (('\x7b' :: dumpsM (.cons k v tlm) ++ ['\x7d']) ++ rest) = _
      rw [dumpsM_cons]
      simp only [List.cons_append, List.append_assoc, List.singleton_append, List.nil_append]
      rw [show parseValue (f + 1) ('\x7b' :: ('\"' :: (escList k.data ++
            '\"' :: ':' :: ' ' :: (dumpsJ v ++ (mTailChars tlm ++ '\x7d' :: rest))))) =
          parseObjBodyWith (parseValue f) f
            (skipWs ('\"' :: (escList k.data ++
              '\"' :: ':' :: ' ' :: (dumpsJ v ++ (mTailChars tlm ++ '\x7d' :: rest))))) from by
        simp [parseValue]]
      rw [skipWs_cons_of_safeHead (by refine ⟨?_, ?_, ?_, ?_, ?_, ?_, ?_⟩ <;> decide)]
      rw [parseObjBodyWith_cons (by decide)]
      rw [show ('\"' :: (escList k.data ++
            '\"' :: ':' :: ' ' :: (dumpsJ v ++ (mTailChars tlm ++ '\x7d' :: rest)))) =
          ('\"' :: escList k.data ++
            '\"' :: ':' :: ' ' :: dumpsJ v ++ (mTailChars tlm ++ '\x7d' :: rest)) from by
        simp]
      rw [RT_member v k f (mTailChars tlm ++ '\x7d' :: rest) hwf'.2.1 (by omega)
        (safeFollow_mTail tlm rest)]
      simp only [skipWs_mTail]
      rw [RT_members tlm (.cons k v .nil) f f rest hwf'.2.2 (by omega)
        (le_trans (mCount_le_jSizeM tlm) (by omega)) hsf]
      rw [show mAppend (.cons k v .nil) tlm = JsonMembers.cons k v tlm from by simp [mAppend]]
      rw [mDedup_of_wf hwfm]
termination_by j _ _ _ _ _ => 2 * jSizeJ j
decreasing_by all_goals simp [jSizeJ, jSizeE, jSizeM] <;> omega

theorem RT_member : ∀ (v : Json) (k : String) (fuelV : Nat) (tailc : List Char),
    wfJ v = true → jSizeJ v ≤ fuelV → SafeFollow tailc →
    parseMemberWith (parseValue fuelV)
      ('\"' :: escList k.data ++ '\"' :: ':' :: ' ' :: dumpsJ v ++ tailc) = .ok (k, v, tailc)
  | v, k, fuelV, tailc, hwf, hsz, hsf => by
    simp only [parseMemberWith, List.append_assoc, List.cons_append]
    rw [show (escList k.data ++ '\"' :: ':' :: ' ' :: (dumpsJ v ++ tailc)) =
        (escList k.data ++ '\"' :: (':' :: ' ' :: (dumpsJ v ++ tailc))) from by simp]
    rw [parseStrBody_escList]
    simp only [skipWs_colon, skipWs_space, skipWs_dumpsJ]
    rw [RT_val v fuelV tailc hwf hsz hsf, mk_data]
termination_by v _ _ _ _ _ _ => 2 * jSizeJ v + 1
decreasing_by all_goals simp [jSizeJ, jSizeE, jSizeM] <;> omega

theorem RT_elems : ∀ (tl : JsonElems) (acc : JsonElems) (fuelV fuelL : Nat) (rest : List Char),
    wfE tl = true → jSizeE tl ≤ fuelV → eCount tl ≤ fuelL → SafeFollow rest →
    parseArrRestWith (parseValue fuelV) fuelL acc (eTailChars tl ++ ']' :: rest) =
      .ok (.arr (eAppend acc tl), rest)
  | .nil, acc, fuelV, fuelL, rest, _, _, _, _ => by
    simp [eTailChars, parseArrRestWith, eAppend_nil]
  | .cons h tl, acc, fuelV, fuelL, rest, hwf, hszv, hcnt, hsf => by
    have hwf' : wfJ h = true ∧ wfE tl = true := by
      simpa [wfE, Bool.and_eq_true] using (hwf : wfE (.cons h tl) = true)
    simp only [jSizeE] at hszv
    cases fuelL with
    | zero => exact absurd hcnt (by simp [eCount])
    | succ g =>
      show parseArrRestWith (parseValue fuelV) (g + 1) acc
        (eTailChars (.cons h tl) ++ ']' :: rest) = _
      rw [show (eTailChars (.cons h tl) ++ ']' :: rest) =
          (',' :: ' ' :: (dumpsJ h ++ (eTailChars tl ++ ']' :: rest))) from by
        simp [eTailChars]]
      rw [show parseArrRestWith (parseValue fuelV) (g + 1) acc
            (',' :: ' ' :: (dumpsJ h ++ (eTailChars tl ++ ']' :: rest))) =
          (match parseValue fuelV
              (skipWs (' ' :: (dumpsJ h ++ (eTailChars tl ++ ']' :: rest)))) with
           | .error e => .error e
           | .ok (v, rest₂) =>
               parseArrRestWith (parseValue fuelV) g (eAppend acc (.cons v .nil))
                 (skipWs rest₂)) from by simp [parseArrRestWith]]
      rw [skipWs_space, skipWs_dumpsJ]
      rw [RT_val h fuelV (eTailChars tl ++ ']' :: rest) hwf'.1 (by omega)
        (safeFollow_eTail tl rest)]
      simp only [skipWs_eTail]
      rw [RT_elems tl (eAppend acc (.cons h .nil)) fuelV g rest hwf'.2 (by omega)
        (by simp [eCount] at hcnt; omega) hsf]
      rw [eAppend_snoc]
termination_by tl _ _ _ _ _ _ _ _ => 2 * jSizeE tl
decreasing_by all_goals simp [jSizeJ, jSizeE, jSizeM] <;> omega

theorem RT_members : ∀ (tl : JsonMembers) (acc : JsonMembers) (fuelV fuelL : Nat)
    (rest : List Char),
    wfM tl = true → jSizeM tl ≤ fuelV → mCount tl ≤ fuelL → SafeFollow rest →
    parseObjRestWith (parseValue fuelV) fuelL acc (mTailChars tl ++ '\x7d' :: rest) =
      .ok (.obj (mDedup (mAppend acc tl)), rest)
  | .nil, acc, fuelV, fuelL, rest, _, _, _, _ => by
    simp [mTailChars, parseObjRestWith, mAppend_nil]
  | .cons k v tl, acc, fuelV, fuelL, rest, hwf, hszv, hcnt, hsf => by
    have hwf' : mFresh k tl = true ∧ wfJ v = true ∧ wfM tl = true := by
      simpa [wfM, Bool.and_eq_true, and_assoc] using (hwf : wfM (.cons k v tl) = true)
    simp only [jSizeM] at hszv
    cases fuelL with
    | zero => exact absurd hcnt (by simp [mCount])
    | succ g =>
      show parseObjRestWith (parseValue fuelV) (g + 1) acc
        (mTailChars (.cons k v tl) ++ '\x7d' :: rest) = _
      rw [show (mTailChars (.cons k v tl) ++ '\x7d' :: rest) =
          (',' :: ' ' :: ('\"' :: (escList k.data ++ '\"' :: ':' :: ' ' ::
            (dumpsJ v ++ (mTailChars tl ++ '\x7d' :: rest))))) from by
        simp [mTailChars]]
      rw [show parseObjRestWith (parseValue fuelV) (g + 1) acc
            (',' :: ' ' :: ('\"' :: (escList k.data ++ '\"' :: ':' :: ' ' ::
              (dumpsJ v ++ (mTailChars tl ++ '\x7d' :: rest))))) =
          (match parseMemberWith (parseValue fuelV)
              (skipWs (' ' :: ('\"' :: (escList k.data ++ '\"' :: ':' :: ' ' ::
                (dumpsJ v ++ (mTailChars tl ++ '\x7d' :: rest)))))) with
           | .error e => .error e
           | .ok (k', v', rest₂) =>
               parseObjRestWith (parseValue fuelV) g (mAppend acc (.cons k' v' .nil))
                 (skipWs rest₂)) from by simp [parseObjRestWith]]
      rw [skipWs_space,
        skipWs_cons_of_safeHead (by refine ⟨?_, ?_, ?_, ?_, ?_, ?_, ?_⟩ <;> decide)]
      rw [show ('\"' :: (escList k.data ++ '\"' :: ':' :: ' ' ::
            (dumpsJ v ++ (mTailChars tl ++ '\x7d' :: rest)))) =
          ('\"' :: escList k.data ++ '\"' :: ':' :: ' ' ::
            dumpsJ v ++ (mTailChars tl ++ '\x7d' :: rest)) from by simp]
      rw [RT_member v k fuelV (mTailChars tl ++ '\x7d' :: rest) hwf'.2.1 (by omega)
        (safeFollow_mTail tl rest)]
      simp only [skipWs_mTail]
      rw [RT_members tl (mAppend acc (.cons k v .nil)) fuelV g rest hwf'.2.2 (by omega)
        (by simp [mCount] at hcnt; omega) hsf]
      rw [mAppend_snoc]
termination_by tl _ _ _ _ _ _ _ _ => 2 * jSizeM tl
decreasing_by all_goals simp [jSizeJ, jSizeE, jSizeM] <;> omega

end

mutual

theorem jSizeJ_le_dumps : ∀ (j : Json), jSizeJ j ≤ (dumpsJ j).length
  | .null => by simp [jSizeJ, dumpsJ]
  | .bool true => by simp [jSizeJ, dumpsJ]
  | .bool false => by simp [jSizeJ, dumpsJ]
  | .num n => by
    obtain ⟨c, cs, hsplit, _, _⟩ := intChars_head n
    simp [jSizeJ, dumpsJ, hsplit]
  | .str s => by simp [jSizeJ, dumpsJ]
  | .arr .nil => by simp [jSizeJ, jSizeE, dumpsJ, dumpsE]
  | .arr (.cons h tl) => by
    have h1 := jSizeJ_le_dumps h
    have h2 := jSizeE_le_eTail tl
    simp only [jSizeJ, jSizeE, dumpsJ, dumpsE_cons, List.length_cons, List.length_append,
      List.length_singleton]
    omega
  | .obj .nil => by simp [jSizeJ, jSizeM, dumpsJ, dumpsM]
  | .obj (.cons k v tl) => by
    have h1 := jSizeJ_le_dumps v
    have h2 := jSizeM_le_mTail tl
    simp only [jSizeJ, jSizeM, dumpsJ, dumpsM_cons, List.length_cons, List.length_append,
      List.length_singleton]
    omega
termination_by j => 2 * jSizeJ j
decreasing_by all_goals simp [jSizeJ, jSizeE, jSizeM] <;> omega

theorem jSizeE_le_eTail : ∀ (tl : JsonElems), jSizeE tl ≤ (eTailChars tl).length
  | .nil => by simp [jSizeE, eTailChars]
  | .cons h tl => by
    have h1 := jSizeJ_le_dumps h
    have h2 := jSizeE_le_eTail tl
    simp only [jSizeE, eTailChars, List.length_cons, List.length_append]
    omega
termination_by tl => 2 * jSizeE tl
decreasing_by all_goals simp [jSizeJ, jSizeE, jSizeM] <;> omega

theorem jSizeM_le_mTail : ∀ (tl : JsonMembers), jSizeM tl ≤ (mTailChars tl).length
  | .nil => by simp [jSizeM, mTailChars]
  | .cons k v tl => by
    have h1 := jSizeJ_le_dumps v
    have h2 := jSizeM_le_mTail tl
    simp only [jSizeM, mTailChars, List.length_cons, List.length_append]
    omega
termination_by tl => 2 * jSizeM tl
decreasing_by all_goals simp [jSizeJ, jSizeE, jSizeM] <;> omega

end

/-- A well-formed value (one whose objects never repeat a key — every value
that exists as Python data) survives `dumps` then `loads` unchanged. -/
theorem loads_dumps {j : Json} (hwf : wfJ j = true) : loads (dumps j) = .ok j := by
  have hrt := RT_val j ((dumpsJ j).length + 1) [] hwf
    (le_trans (jSizeJ_le_dumps j) (by omega)) (by simp [SafeFollow])
  rw [List.append_nil] at hrt
  obtain ⟨c, cs, hhead, hsafe⟩ := dumpsJ_head j
  unfold loads dumps
  rw [show (String.mk (dumpsJ j)).data = dumpsJ j from rfl]
  rw [show (String.mk (dumpsJ j)).length = (dumpsJ j).length from rfl]
  rw [hhead, skipWs_cons_of_safeHead hsafe, ← hhead, hrt]
  simp [skipWs]

theorem mFresh_mRemove_self (key : String) : ∀ (tl : JsonMembers),
    mFresh key (mRemove key tl) = true
  | .nil => rfl
  | .cons k v tl => by
    by_cases hk : k = key
    · simp [mRemove, hk, mFresh_mRemove_self key tl]
    · simp [mRemove, hk, mFresh, mFresh_mRemove_self key tl]

theorem mLen_mRemove_le (key : String) : ∀ (tl : JsonMembers),
    mLen (mRemove key tl) ≤ mLen tl
  | .nil => le_rfl
  | .cons k v tl => by
    have := mLen_mRemove_le key tl
    by_cases hk : k = key <;> simp [mRemove, hk, mLen] <;> omega

theorem mFresh_mRemove_other (key k : String) : ∀ {tl : JsonMembers},
    mFresh key tl = true → mFresh key (mRemove k tl) = true
  | .nil, _ => rfl
  | .cons k₂ v₂ t₂, h => by
    by_cases hkey : k₂ = key
    · simp [mFresh, hkey] at h
    · simp only [mFresh, if_neg hkey] at h
      by_cases hk₂ : k₂ = k
      · simp [mRemove, hk₂, mFresh_mRemove_other key k h]
      · simp [mRemove, hk₂, mFresh, hkey, mFresh_mRemove_other key k h]

theorem mFresh_mDedupF (key : String) : ∀ (f : Nat) (tl : JsonMembers),
    mFresh key tl = true → mFresh key (mDedupF f tl) = true := by
  intro f
  induction f with
  | zero => intro tl h; cases tl <;> simp [mDedupF, mFresh]
  | succ g ih =>
    intro tl h
    cases tl with
    | nil => simp [mDedupF, mFresh]
    | cons k v tl =>
      by_cases hk : k = key
      · simp [mFresh, hk] at h
      · simp only [mFresh, if_neg hk] at h
        simp only [mDedupF, mFresh, if_neg hk]
        exact ih (mRemove k tl) (mFresh_mRemove_other key k h)

theorem wfVals_mRemove (key : String) : ∀ {tl : JsonMembers},
    wfVals tl = true → wfVals (mRemove key tl) = true
  | .nil, _ => rfl
  | .cons k v tl, h => by
    simp only [wfVals, Bool.and_eq_true] at h
    by_cases hk : k = key
    · simp [mRemove, hk, wfVals_mRemove key h.2]
    · simp [mRemove, hk, wfVals, h.1, wfVals_mRemove key h.2]

theorem wfJ_mLastVal (key : String) (v : Json) : ∀ (tl : JsonMembers),
    wfVals tl = true → wfJ v = true → wfJ (mLastVal key v tl) = true
  | .nil, _, hv => hv
  | .cons k v' tl, h, hv => by
    simp only [wfVals, Bool.and_eq_true] at h
    by_cases hk : k = key
    · simp only [mLastVal, if_pos hk]
      exact wfJ_mLastVal key v' tl h.2 h.1
    · simp only [mLastVal, if_neg hk]
      exact wfJ_mLastVal key v tl h.2 hv

theorem wfM_mDedupF : ∀ (f : Nat) (tl : JsonMembers), mLen tl ≤ f →
    wfVals tl = true → wfM (mDedupF f tl) = true := by
  intro f
  induction f with
  | zero =>
    intro tl hlen _
    cases tl with
    | nil => rfl
    | cons k v tl => simp [mLen] at hlen
  | succ g ih =>
    intro tl hlen hvals
    cases tl with
    | nil => rfl
    | cons k v tl =>
      simp only [wfVals, Bool.and_eq_true] at hvals
      simp only [mDedupF, wfM, Bool.and_eq_true]
      refine ⟨⟨mFresh_mDedupF k g (mRemove k tl) (mFresh_mRemove_self k tl), ?_⟩, ?_⟩
      · exact wfJ_mLastVal k v tl hvals.2 hvals.1
      · exact ih (mRemove k tl)
          (le_trans (mLen_mRemove_le k tl) (by simp [mLen] at hlen; omega))
          (wfVals_mRemove k hvals.2)

theorem wfM_mDedup {tl : JsonMembers} (h : wfVals tl = true) : wfM (mDedup tl) = true :=
  wfM_mDedupF (mLen tl) tl le_rfl h

theorem wfVals_mAppend (k : String) (v : Json) : ∀ {a : JsonMembers},
    wfVals a = true → wfJ v = true → wfVals (mAppend a (.cons k v .nil)) = true
  | .nil, _, hv => by simp [mAppend, wfVals, hv]
  | .cons k' v' tl, ha, hv => by
    simp only [wfVals, Bool.and_eq_true] at ha
    simp [mAppend, wfVals, ha.1, wfVals_mAppend k v ha.2 hv]

theorem wfE_eAppend (v : Json) : ∀ {a : JsonElems},
    wfE a = true → wfJ v = true → wfE (eAppend a (.cons v .nil)) = true
  | .nil, _, hv => by simp [eAppend, wfE, hv]
  | .cons h tl, ha, hv => by
    simp only [wfE, Bool.and_eq_true] at ha
    simp [eAppend, wfE, ha.1, wfE_eAppend v ha.2 hv]

theorem PW_num : ∀ (cs : List Char) (j : Json) (r : List Char),
    parseNum cs = .ok (j, r) → wfJ j = true := by
  have hfrom : ∀ (neg : Bool) (cs : List Char) (j : Json) (r : List Char),
      parseNumFrom neg cs = .ok (j, r) → wfJ j = true := by
    intro neg cs j r h
    have hfin : ∀ (v : Int) (l : List Char), finishNum v l = .ok (j, r) → wfJ j = true := by
      intro v l hf
      unfold finishNum at hf
      split at hf
      · simp at hf
      · simp at hf
      · simp at hf
      · simp only [Except.ok.injEq, Prod.mk.injEq] at hf
        exact hf.1 ▸ rfl
    unfold parseNumFrom at h
    split at h
    · exact hfin _ _ h
    · split at h
      · exact hfin _ _ h
      · simp at h
    · simp at h
  intro cs j r h
  unfold parseNum at h
  split at h
  · exact hfrom _ _ _ _ h
  · exact hfrom _ _ _ _ h

theorem PW_member (pv : List Char → Except String (Json × List Char))
    (hpv : ∀ cs j r, pv cs = .ok (j, r) → wfJ j = true) :
    ∀ (cs : List Char) (k : String) (v : Json) (r : List Char),
      parseMemberWith pv cs = .ok (k, v, r) → wfJ v = true := by
  intro cs k v r h
  unfold parseMemberWith at h
  split at h
  · split at h
    · simp at h
    · split at h
      · split at h
        · simp at h
        · rename_i heq
          simp only [Except.ok.injEq, Prod.mk.injEq] at h
          obtain ⟨-, hv, -⟩ := h
          exact hv ▸ hpv _ _ _ heq
      · simp at h
  · simp at h

theorem PW_objRest (pv : List Char → Except String (Json × List Char))
    (hpv : ∀ cs j r, pv cs = .ok (j, r) → wfJ j = true) :
    ∀ (fl : Nat) (acc : JsonMembers) (cs : List Char) (j : Json) (r : List Char),
      wfVals acc = true → parseObjRestWith pv fl acc cs = .ok (j, r) → wfJ j = true := by
  intro fl
  induction fl using Nat.strong_induction_on with
  | _ fl ih =>
    intro acc cs j r hacc h
    unfold parseObjRestWith at h
    split at h
    · simp only [Except.ok.injEq, Prod.mk.injEq] at h
      exact h.1 ▸ wfM_mDedup hacc
    · split at h
      · simp at h
      · split at h
        · simp at h
        · rename_i hmem
          exact ih _ (by omega) _ _ _ _
            (wfVals_mAppend _ _ hacc (PW_member pv hpv _ _ _ _ hmem)) h
    · simp at h

theorem PW_arrRest (pv : List Char → Except String (Json × List Char))
    (hpv : ∀ cs j r, pv cs = .ok (j, r) → wfJ j = true) :
    ∀ (fl : Nat) (acc : JsonElems) (cs : List Char) (j : Json) (r : List Char),
      wfE acc = true → parseArrRestWith pv fl acc cs = .ok (j, r) → wfJ j = true := by
  intro fl
  induction fl using Nat.strong_induction_on with
  | _ fl ih =>
    intro acc cs j r hacc h
    unfold parseArrRestWith at h
    split at h
    · simp only [Except.ok.injEq, Prod.mk.injEq] at h
      exact h.1 ▸ hacc
    · split at h
      · simp at h
      · split at h
        · simp at h
        · rename_i hval
          exact ih _ (by omega) _ _ _ _ (wfE_eAppend _ hacc (hpv _ _ _ hval)) h
    · simp at h

theorem PW_objBody (pv : List Char → Except String (Json × List Char))
    (hpv : ∀ cs j r, pv cs = .ok (j, r) → wfJ j = true) :
    ∀ (fl : Nat) (cs : List Char) (j : Json) (r : List Char),
      parseObjBodyWith pv fl cs = .ok (j, r) → wfJ j = true := by
  intro fl cs j r h
  unfold parseObjBodyWith at h
  split at h
  · simp only [Except.ok.injEq, Prod.mk.injEq] at h
    exact h.1 ▸ rfl
  · split at h
    · simp at h
    · rename_i hmem
      exact PW_objRest pv hpv _ _ _ _ _
        (by simp [wfVals, PW_member pv hpv _ _ _ _ hmem]) h

theorem PW_arrBody (pv : List Char → Except String (Json × List Char))
    (hpv : ∀ cs j r, pv cs = .ok (j, r) → wfJ j = true) :
    ∀ (fl : Nat) (cs : List Char) (j : Json) (r : List Char),
      parseArrBodyWith pv fl cs = .ok (j, r) → wfJ j = true := by
  intro fl cs j r h
  unfold parseArrBodyWith at h
  split at h
  · simp only [Except.ok.injEq, Prod.mk.injEq] at h
    exact h.1 ▸ rfl
  · split at h
    · simp at h
    · rename_i hval
      exact PW_arrRest pv hpv _ _ _ _ _ (by simp [wfE, hpv _ _ _ hval]) h

theorem PW_value : ∀ (fuel : Nat) (cs : List Char) (j : Json) (r : List Char),
    parseValue fuel cs = .ok (j, r) → wfJ j = true := by
  intro fuel
  induction fuel using Nat.strong_induction_on with
  | _ fuel ih =>
    intro cs j r h
    match fuel with
    | 0 => simp [parseValue] at h
    | f + 1 =>
      have hpv : ∀ cs j r, parseValue f cs = .ok (j, r) → wfJ j = true :=
        fun cs j r h => ih f (by omega) cs j r h
      cases cs with
      | nil => simp [parseValue] at h
      | cons c rest =>
        simp only [parseValue] at h
        split_ifs at h
        · split at h
          · simp only [Except.ok.injEq, Prod.mk.injEq] at h
            exact h.1 ▸ rfl
          · simp at h
        · exact PW_objBody _ hpv _ _ _ _ h
        · exact PW_arrBody _ hpv _ _ _ _ h
        · split at h
          · simp only [Except.ok.injEq, Prod.mk.injEq] at h
            exact h.1 ▸ rfl
          · exact PW_num _ _ _ h
        · split at h
          · simp only [Except.ok.injEq, Prod.mk.injEq] at h
            exact h.1 ▸ rfl
          · exact PW_num _ _ _ h
        · split at h
          · simp only [Except.ok.injEq, Prod.mk.injEq] at h
            exact h.1 ▸ rfl
          · exact PW_num _ _ _ h
        · exact PW_num _ _ _ h

/-- What `json.loads` hands back is always well-formed: every object it
builds went through the dict (keep-last, distinct keys) construction. -/
theorem loads_wf {s : String} {j : Json} (h : loads s = .ok j) : wfJ j = true := by
  unfold loads at h
  split at h
  · simp at h
  · rename_i heq
    split at h
    · simp only [Except.ok.injEq] at h
      subst h
      exact PW_value _ _ _ _ heq
    · simp at h

theorem save_player_ok {body : JsonMembers} {p : Player} (pid : String) (today : Date)
    (db : DB) (h : parseBody body = .ok p) :
    save_player pid body today db =
      ⟨.message ("✅ Player " ++ p.name ++ " saved successfully"),
       ⟨upsertPlayer db.players pid p.name p.specialties,
        db.player_stats ++ [mkStatsRow pid p today]⟩, 1, 1⟩ := by
  unfold parseBody at h
  unfold save_player
  split at h
  · simp at h
  · rename_i body₂ hdec
    rw [h]
    rfl

theorem save_player_err {body : JsonMembers} {e : String} (pid : String) (today : Date)
    (db : DB) (h : parseBody body = .error e) :
    save_player pid body today db = ⟨.error e, db, 0, 0⟩ := by
  unfold parseBody at h
  unfold save_player
  split at h
  · rename_i hdec
    simp only [Except.error.injEq] at h
    rw [h]
  · rename_i body₂ hdec
    rw [h]

theorem mFind?_wf : ∀ {tl : JsonMembers} {key : String} {v : Json},
    wfM tl = true → mFind? key tl = some v → wfJ v = true
  | .nil, _, _, _, hf => by simp [mFind?] at hf
  | .cons k v' t, key, v, hwf, hf => by
    obtain ⟨-, hv, ht⟩ : mFresh k t = true ∧ wfJ v' = true ∧ wfM t = true := by
      simpa [wfM, Bool.and_eq_true, and_assoc] using hwf
    by_cases hk : k = key
    · simp only [mFind?, if_pos hk, Option.some.injEq] at hf
      exact hf ▸ hv
    · simp only [mFind?, if_neg hk] at hf
      exact mFind?_wf ht hf

theorem mFresh_mSet (key k : String) (j : Json) : ∀ {tl : JsonMembers},
    mFresh k tl = true → ¬(k = key) → mFresh k (mSet key j tl) = true
  | .nil, _, hne => by
    have hne' : ¬(key = k) := fun hh => hne hh.symm
    simp [mSet, mFresh, hne']
  | .cons k' v' t, h, hne => by
    by_cases hk' : k' = k
    · simp [mFresh, hk'] at h
    · simp only [mFresh, if_neg hk'] at h
      by_cases hkey : k' = key
      · simp only [mSet, if_pos hkey, mFresh, if_neg hk']
        exact h
      · simp only [mSet, if_neg hkey, mFresh, if_neg hk']
        exact mFresh_mSet key k j h hne

theorem wfM_mSet (key : String) (j : Json) : ∀ {tl : JsonMembers},
    wfM tl = true → wfJ j = true → wfM (mSet key j tl) = true
  | .nil, _, hj => by simp [mSet, wfM, mFresh, hj]
  | .cons k v t, h, hj => by
    obtain ⟨hf, hv, ht⟩ : mFresh k t = true ∧ wfJ v = true ∧ wfM t = true := by
      simpa [wfM, Bool.and_eq_true, and_assoc] using h
    by_cases hk : k = key
    · simp [mSet, hk, wfM, hf, hj, ht, Bool.and_eq_true]
      exact hk ▸ hf
    · simp only [mSet, if_neg hk, wfM, Bool.and_eq_true]
      exact ⟨⟨mFresh_mSet key k j hf hk, hv⟩, wfM_mSet key j ht hj⟩

theorem decodeSkillsField_wf {body b₂ : JsonMembers} (hwf : wfM body = true)
    (h : decodeSkillsField body = .ok b₂) : wfM b₂ = true := by
  unfold decodeSkillsField at h
  split at h
  · split at h
    · rename_i j hloads
      simp only [Except.ok.injEq] at h
      subst h
      exact wfM_mSet "skills" j hwf (loads_wf hloads)
    · simp at h
  · simp only [Except.ok.injEq] at h
    subst h
    exact hwf

theorem validatePlayer_fields {body : JsonMembers} {p : Player}
    (h : validatePlayer body = .ok p) :
    reqStr body "name" = .ok p.name ∧ reqStr body "age" = .ok p.age ∧
    reqStr body "TSI" = .ok p.TSI ∧ reqStr body "salary" = .ok p.salary ∧
    reqStr body "specialties" = .ok p.specialties ∧ reqStr body "form" = .ok p.form ∧
    reqStr body "fitness" = .ok p.fitness ∧ reqSkills body = .ok p.skills ∧
    reqDate body = .ok p.date := by
  unfold validatePlayer at h
  cases h1 : reqStr body "name" with
  | error e => rw [h1] at h; simp [Bind.bind, Except.bind] at h
  | ok name =>
  rw [h1] at h; simp only [Bind.bind, Except.bind] at h
  cases h2 : reqStr body "age" with
  | error e => rw [h2] at h; simp [Except.bind] at h
  | ok age =>
  rw [h2] at h; simp only [Except.bind] at h
  cases h3 : reqStr body "TSI" with
  | error e => rw [h3] at h; simp [Except.bind] at h
  | ok TSI =>
  rw [h3] at h; simp only [Except.bind] at h
  cases h4 : reqStr body "salary" with
  | error e => rw [h4] at h; simp [Except.bind] at h
  | ok salary =>
  rw [h4] at h; simp only [Except.bind] at h
  cases h5 : reqStr body "specialties" with
  | error e => rw [h5] at h; simp [Except.bind] at h
  | ok specialties =>
  rw [h5] at h; simp only [Except.bind] at h
  cases h6 : reqStr body "form" with
  | error e => rw [h6] at h; simp [Except.bind] at h
  | ok form =>
  rw [h6] at h; simp only [Except.bind] at h
  cases h7 : reqStr body "fitness" with
  | error e => rw [h7] at h; simp [Except.bind] at h
  | ok fitness =>
  rw [h7] at h; simp only [Except.bind] at h
  cases h8 : reqSkills body with
  | error e => rw [h8] at h; simp [Except.bind] at h
  | ok skills =>
  rw [h8] at h; simp only [Except.bind] at h
  cases h9 : reqDate body with
  | error e => rw [h9] at h; simp [Except.bind] at h
  | ok date =>
  rw [h9] at h; simp only [Except.bind, pure, Except.pure, Except.ok.injEq] at h
  subst h
  exact ⟨rfl, rfl, rfl, rfl, rfl, rfl, rfl, rfl, rfl⟩

theorem reqSkills_find {body : JsonMembers} {m : JsonMembers}
    (h : reqSkills body = .ok m) : mFind? "skills" body = some (.obj m) := by
  unfold reqSkills at h
  split at h
  · simp only [Except.ok.injEq] at h
    subst h
    assumption
  · simp at h
  · simp at h

/-- A successful save stores a well-formed skills mapping (the request body
is a decoded dict, hence well-formed; a skills string goes through
`json.loads`, whose output is well-formed). -/
theorem parseBody_skills_wf {body : JsonMembers} {p : Player}
    (hwf : wfM body = true) (h : parseBody body = .ok p) : wfM p.skills = true := by
  unfold parseBody at h
  split at h
  · simp at h
  · rename_i body₂ hdec
    have hwf₂ : wfM body₂ = true := decodeSkillsField_wf hwf hdec
    have hsk := (validatePlayer_fields h).2.2.2.2.2.2.2.1
    have : wfJ (.obj p.skills) = true := mFind?_wf hwf₂ (reqSkills_find hsk)
    exact this

theorem upsertPlayer_ids_nodup {ps : List PlayerRow} (id n sp : String)
    (h : (ps.map (fun p => p.id)).Nodup) :
    ((upsertPlayer ps id n sp).map (fun p => p.id)).Nodup := by
  unfold upsertPlayer
  split
  · have : (ps.map (fun p => if p.id = id then (⟨p.id, n, sp⟩ : PlayerRow) else p)).map
        (fun p => p.id) = ps.map (fun p => p.id) := by
      rw [List.map_map]
      exact List.map_congr_left fun p _ => by
        by_cases hp : p.id = id <;> simp [hp]
    rw [this]
    exact h
  · rename_i hany
    simp only [List.map_append, List.map_cons, List.map_nil]
    rw [List.nodup_append]
    refine ⟨h, List.nodup_singleton id, ?_⟩
    intro a ha hb
    simp only [List.mem_singleton] at hb
    subst hb
    simp only [List.mem_map] at ha
    obtain ⟨p, hp, hpa⟩ := ha
    exact hany (by simp only [List.any_eq_true]; exact ⟨p, hp, by simp [hpa]⟩)

theorem upsertPlayer_has_id (ps : List PlayerRow) (id n sp : String) :
    ∃ p ∈ upsertPlayer ps id n sp, p.id = id := by
  unfold upsertPlayer
  split
  · rename_i hany
    simp only [List.any_eq_true] at hany
    obtain ⟨p, hp, hpid⟩ := hany
    simp only [decide_eq_true_eq] at hpid
    refine ⟨⟨p.id, n, sp⟩, ?_, hpid⟩
    exact List.mem_map.mpr ⟨p, hp, by simp [hpid]⟩
  · exact ⟨⟨id, n, sp⟩, by simp, rfl⟩

theorem upsertPlayer_keeps_ids {ps : List PlayerRow} {q : PlayerRow} (id n sp : String)
    (hq : q ∈ ps) : ∃ p ∈ upsertPlayer ps id n sp, p.id = q.id := by
  unfold upsertPlayer
  split
  · by_cases hqid : q.id = id
    · exact ⟨⟨q.id, n, sp⟩, List.mem_map.mpr ⟨q, hq, by simp [hqid]⟩, rfl⟩
    · exact ⟨q, List.mem_map.mpr ⟨q, hq, by simp [hqid]⟩, rfl⟩
  · exact ⟨q, by simp [hq], rfl⟩

theorem reachable_inv : ∀ {db : DB}, Reachable db → DBInv db := by
  intro db h
  induction h with
  | empty => exact ⟨List.nodup_nil, by simp [emptyDB], by simp [emptyDB]⟩
  | save pid body today hbody hdb ih =>
    obtain ⟨hnodup, hmatch, hskills⟩ := ih
    cases hpb : parseBody body with
    | error e =>
      rw [save_player_err pid today _ hpb]
      exact ⟨hnodup, hmatch, hskills⟩
    | ok p =>
      rw [save_player_ok pid today _ hpb]
      refine ⟨upsertPlayer_ids_nodup pid p.name p.specialties hnodup, ?_, ?_⟩
      · intro s hs
        simp only [List.mem_append, List.mem_singleton] at hs
        rcases hs with hs | hs
        · obtain ⟨q, hq, hqid⟩ := hmatch s hs
          obtain ⟨p', hp', hp'id⟩ := upsertPlayer_keeps_ids pid p.name p.specialties hq
          exact ⟨p', hp', hp'id.trans hqid⟩
        · subst hs
          obtain ⟨p', hp', hp'id⟩ := upsertPlayer_has_id _ pid p.name p.specialties
          exact ⟨p', hp', hp'id⟩
      · intro s hs
        simp only [List.mem_append, List.mem_singleton] at hs
        rcases hs with hs | hs
        · exact hskills s hs
        · subst hs
          exact ⟨p.skills, parseBody_skills_wf hbody hpb, rfl⟩

theorem outRow_of_decodable {r : StatsRow × PlayerRow} {j : Json}
    (h : loads r.1.skills = .ok j) : outRow r = .ok (outRowWf r) := by
  unfold outRow outRowWf
  rw [h]

theorem buildRows_of_decodable : ∀ {rows : List (StatsRow × PlayerRow)},
    (∀ r ∈ rows, ∃ j, loads r.1.skills = .ok j) →
    buildRows rows = .ok (rows.map outRowWf)
  | [], _ => rfl
  | r :: tl, h => by
    obtain ⟨j, hj⟩ := h r (by simp)
    have htl : ∀ x ∈ tl, ∃ j, loads x.1.skills = .ok j :=
      fun x hx => h x (List.mem_cons_of_mem r hx)
    simp only [buildRows, outRow_of_decodable hj,
      buildRows_of_decodable htl, List.map_cons]

theorem flatMap_filter_single (P : PlayerRow) : ∀ (l : List StatsRow),
    (∀ s ∈ l, s.player_id = P.id) →
    (l.flatMap fun s => (([P].filter fun p => p.id = s.player_id).map fun p => (s, p))) =
      l.map (fun s => (s, P))
  | [], _ => rfl
  | s :: tl, h => by
    have hs : s.player_id = P.id := h s (by simp)
    have htl := flatMap_filter_single P tl (fun x hx => h x (List.mem_cons_of_mem s hx))
    simp only [List.flatMap_cons, htl, List.map_cons]
    simp [List.filter_cons, hs]

theorem joinRows_single {db : DB} {P : PlayerRow} (hps : db.players = [P])
    (hall : ∀ s ∈ db.player_stats, s.player_id = P.id) :
    joinRows db = db.player_stats.map (fun s => (s, P)) := by
  unfold joinRows
  rw [hps]
  exact flatMap_filter_single P db.player_stats hall

theorem sortByDateDesc_perm (rows : List (StatsRow × PlayerRow)) :
    (sortByDateDesc rows).Perm rows :=
  List.perm_insertionSort dateDescRel rows

theorem sortByDateDesc_sorted (rows : List (StatsRow × PlayerRow)) :
    List.Pairwise dateDescRel (sortByDateDesc rows) :=
  List.sorted_insertionSort dateDescRel rows

theorem buildRows_length : ∀ {rows : List (StatsRow × PlayerRow)} {os : List OutRow},
    buildRows rows = .ok os → os.length = rows.length
  | [], os, h => by
    simp only [buildRows, Except.ok.injEq] at h
    simp [← h]
  | r :: tl, os, h => by
    unfold buildRows at h
    split at h
    · simp at h
    · split at h
      · simp at h
      · rename_i os' htl
        simp only [Except.ok.injEq] at h
        subst h
        simp [buildRows_length htl]

theorem filter_single_id (sid : String) : ∀ {ps : List PlayerRow},
    (ps.map (fun p => p.id)).Nodup →
    (ps.filter fun p => p.id = sid).length =
      if ps.any (fun p => p.id = sid) then 1 else 0
  | [], _ => rfl
  | p :: tl, h => by
    simp only [List.map_cons, List.nodup_cons, List.mem_map] at h
    obtain ⟨hnotin, htl⟩ := h
    by_cases hp : p.id = sid
    · have hzero : (tl.filter fun q => q.id = sid).length = 0 := by
        rw [List.length_eq_zero]
        rw [List.filter_eq_nil_iff]
        intro q hq
        simp only [decide_eq_true_eq]
        intro hqid
        exact hnotin ⟨q, hq, hqid.trans hp.symm⟩
      simp [List.filter_cons, hp, hzero, List.any_cons]
    · simp only [List.filter_cons, decide_eq_true_eq, hp, if_false, List.any_cons]
      rw [filter_single_id sid htl]
      simp [hp]

theorem sum_ite_filter {α : Type} (q : α → Bool) : ∀ (l : List α),
    (l.map (fun s => if q s then 1 else 0)).sum = (l.filter q).length
  | [] => rfl
  | s :: tl => by
    by_cases h : q s <;>
      simp [List.filter_cons, h, sum_ite_filter q tl, List.sum_cons, Nat.add_comm]

theorem joinRows_length {db : DB}
    (hnodup : (db.players.map (fun p => p.id)).Nodup) :
    (joinRows db).length =
      (db.player_stats.filter fun s => db.players.any fun p => p.id = s.player_id).length := by
  unfold joinRows
  rw [List.length_flatMap, ← sum_ite_filter]
  congr 1
  apply List.map_congr_left
  intro s _
  simp only [Function.comp_apply, List.length_map]
  exact filter_single_id s.player_id hnodup

theorem mem_joinRows {db : DB} {r : StatsRow × PlayerRow} (h : r ∈ joinRows db) :
    r.1 ∈ db.player_stats := by
  unfold joinRows at h
  simp only [List.mem_flatMap, List.mem_map, List.mem_filter] at h
  obtain ⟨s, hs, p, _, heq⟩ := h
  rw [← heq]
  exact hs

theorem get_all_players_none_none (db : DB) :
    get_all_players none none db = listQuery none none db := rfl

theorem get_all_players_some_none {pid : String} (hpid : ¬(pid = "")) (db : DB) :
    get_all_players (some pid) none db = listQuery (some pid) none db := by
  unfold get_all_players
  simp [hpid]

theorem listQuery_none_none (db : DB) :
    listQuery none none db =
      match buildRows (sortByDateDesc (joinRows db)) with
      | .ok os => ⟨.rows os, 1, 1⟩
      | .error e => ⟨.exn e, 1, 0⟩ := by
  unfold listQuery
  simp

theorem listQuery_some_none (pid : String) (db : DB) :
    listQuery (some pid) none db =
      match buildRows (sortByDateDesc ((joinRows db).filter
        (fun r => (r.2.id = pid : Bool)))) with
      | .ok os => ⟨.rows os, 1, 1⟩
      | .error e => ⟨.exn e, 1, 0⟩ := by
  unfold listQuery
  simp

theorem runSaves_nil (pid : String) (db : DB) : runSaves pid [] db = db := rfl

theorem runSaves_cons (pid : String) (r : JsonMembers × Date)
    (reqs : List (JsonMembers × Date)) (db : DB) :
    runSaves pid (r :: reqs) db = runSaves pid reqs (save_player pid r.1 r.2 db).db := rfl

theorem upsertPlayer_single (pid n sp n' sp' : String) :
    upsertPlayer [⟨pid, n, sp⟩] pid n' sp' = [⟨pid, n', sp'⟩] := by
  unfold upsertPlayer
  simp

theorem upsertPlayer_empty (pid n' sp' : String) :
    upsertPlayer [] pid n' sp' = [⟨pid, n', sp'⟩] := by
  unfold upsertPlayer
  simp

theorem runSaves_from_single (pid : String) :
    ∀ {reqs : List (JsonMembers × Date)} {ps : List Player},
    List.Forall₂ (fun r p => parseBody r.1 = Except.ok p) reqs ps →
    ∀ (db : DB) (n sp : String), db.players = [⟨pid, n, sp⟩] →
    (runSaves pid reqs db).player_stats =
      db.player_stats ++ List.zipWith (fun r p => mkStatsRow pid p r.2) reqs ps ∧
    ∃ n' sp', (runSaves pid reqs db).players = [⟨pid, n', sp'⟩] := by
  intro reqs ps hf
  induction hf with
  | nil =>
    intro db n sp h
    exact ⟨by simp [runSaves_nil], n, sp, h⟩
  | @cons r p reqs' ps' hrp _ ih =>
    intro db n sp h
    have hsave := save_player_ok pid r.2 db hrp
    have hnext : (save_player pid r.1 r.2 db).db =
        ⟨[⟨pid, p.name, p.specialties⟩], db.player_stats ++ [mkStatsRow pid p r.2]⟩ := by
      rw [hsave]
      simp only
      rw [h, upsertPlayer_single]
    rw [runSaves_cons, hnext]
    obtain ⟨hstats, n', sp', hplayers⟩ :=
      ih ⟨[⟨pid, p.name, p.specialties⟩], db.player_stats ++ [mkStatsRow pid p r.2]⟩
        p.name p.specialties rfl
    refine ⟨?_, n', sp', hplayers⟩
    rw [hstats]
    simp [List.zipWith]

theorem reachable_save {db : DB} (h : Reachable db) (pid : String) (body : JsonMembers)
    (today : Date) (hwf : wfM body = true) : Reachable (save_player pid body today db).db :=
  Reachable.save pid body today hwf h

theorem runSaves_reachable (pid : String) :
    ∀ (reqs : List (JsonMembers × Date)) (db : DB),
    (∀ r ∈ reqs, wfM r.1 = true) → Reachable db → Reachable (runSaves pid reqs db)
  | [], _, _, hdb => hdb
  | r :: tl, db, hwf, hdb => by
    rw [runSaves_cons]
    exact runSaves_reachable pid tl _ (fun x hx => hwf x (List.mem_cons_of_mem r hx))
      (reachable_save hdb pid r.1 r.2 (hwf r (List.mem_cons_self r tl)))

theorem strptimeDMY_valid {s : String} {dt : Date} (h : strptimeDMY s = some dt) :
    dt.valid = true := by
  unfold strptimeDMY at h
  split at h
  · simp at h
  · split at h
    · split at h
      · simp at h
      · split at h
        · split at h
          · simp at h
          · split at h
            · rename_i hc
              simp only [Option.some.injEq] at h
              subst h
              simp only [Bool.and_eq_true] at hc
              exact hc.2
            · simp at h
        · simp at h
    · simp at h

theorem outDate_strftimeISO {dt : Date} (h : dt.valid = true)
    (hy : 1000 ≤ dt.year) :
    outDate (strftimeISO dt) = strftimeDMY dt := by
  unfold outDate
  rw [strptimeISO_strftimeISO h hy]

/-- For a stored year below 1000 the re-parse fails and `except: pass`
leaves the raw stored value. -/
theorem outDate_strftimeISO_small {dt : Date} (h : dt.year < 1000) :
    outDate (strftimeISO dt) = strftimeISO dt := by
  unfold outDate
  rw [strptimeISO_strftimeISO_small h]

theorem sortByDateDesc_single (x : StatsRow × PlayerRow) :
    sortByDateDesc [x] = [x] := rfl

theorem upsertPlayer_fresh {ps : List PlayerRow} {id : String}
    (h : ∀ q ∈ ps, q.id ≠ id) (n sp : String) :
    upsertPlayer ps id n sp = ps ++ [⟨id, n, sp⟩] := by
  unfold upsertPlayer
  rw [if_neg]
  simp only [List.any_eq_true, decide_eq_true_eq, not_exists, not_and]
  exact h

theorem upsertPlayer_append_hit {ps : List PlayerRow} {id : String}
    (h : ∀ q ∈ ps, q.id ≠ id) (n₁ sp₁ n₂ sp₂ : String) :
    upsertPlayer (ps ++ [⟨id, n₁, sp₁⟩]) id n₂ sp₂ = ps ++ [⟨id, n₂, sp₂⟩] := by
  unfold upsertPlayer
  rw [if_pos (by simp)]
  rw [List.map_append]
  have hps : List.map (fun p => if p.id = id then (⟨p.id, n₂, sp₂⟩ : PlayerRow) else p) ps =
      List.map (fun p => p) ps :=
    List.map_congr_left (fun q hq => if_neg (h q hq))
  rw [hps, List.map_id']
  simp

theorem filter_id_append {ps : List PlayerRow} {id : String}
    (h : ∀ q ∈ ps, q.id ≠ id) (n sp : String) :
    (ps ++ [(⟨id, n, sp⟩ : PlayerRow)]).filter (fun q => q.id = id) =
      [(⟨id, n, sp⟩ : PlayerRow)] := by
  rw [List.filter_append]
  have hnil : ps.filter (fun q => q.id = id) = [] := by
    rw [List.filter_eq_nil_iff]
    intro q hq
    simp only [decide_eq_true_eq]
    exact h q hq
  rw [hnil]
  simp

theorem mem_zipWith_mkStatsRow (pid : String) :
    ∀ {l : List (JsonMembers × Date)} {l' : List Player} {x : StatsRow},
    x ∈ List.zipWith (fun (r : JsonMembers × Date) (p : Player) => mkStatsRow pid p r.2) l l' →
    x.player_id = pid
  | [], _, x, h => by simp at h
  | _ :: _, [], x, h => by simp at h
  | r :: tl, p :: tl', x, h => by
    simp only [List.zipWith_cons_cons, List.mem_cons] at h
    cases h with
    | inl h => rw [h]; rfl
    | inr h => exact mem_zipWith_mkStatsRow pid h

theorem forall₂_left {R : JsonMembers × Date → Player → Prop}
    {l : List (JsonMembers × Date)} {l' : List Player}
    (h : List.Forall₂ R l l') : ∀ r ∈ l, ∃ p, R r p := by
  induction h with
  | nil => intro r hr; simp at hr
  | cons hrp _ ih =>
    intro x hx
    rcases List.mem_cons.mp hx with h | h
    · exact ⟨_, h ▸ hrp⟩
    · exact ih x h

theorem mFind?_mSet_ne {k k' : String} (v : Json) (hne : ¬(k = k')) :
    ∀ (m : JsonMembers), mFind? k (mSet k' v m) = mFind? k m
  | .nil => by
    simp only [mSet, mFind?]
    rw [if_neg (fun h => hne h.symm)]
  | .cons k₀ v₀ tl => by
    by_cases h₀ : k₀ = k'
    · simp only [mSet, if_pos h₀, mFind?]
      rw [if_neg (fun h => hne ((Eq.symm h).trans h₀)),
        if_neg (fun h => hne ((Eq.symm h).trans h₀))]
    · simp only [mSet, if_neg h₀, mFind?]
      by_cases hk : k₀ = k
      · rw [if_pos hk, if_pos hk]
      · rw [if_neg hk, if_neg hk]
        exact mFind?_mSet_ne v hne tl

theorem decodeSkillsField_date {body body₂ : JsonMembers}
    (h : decodeSkillsField body = .ok body₂) :
    mFind? "date" body₂ = mFind? "date" body := by
  unfold decodeSkillsField at h
  split at h
  · split at h
    · simp only [Except.ok.injEq] at h
      subst h
      exact mFind?_mSet_ne _ (by decide) body
    · simp at h
  · simp only [Except.ok.injEq] at h
    subst h
    rfl

theorem parseBody_date_none {body : JsonMembers} {p : Player}
    (hdateF : mFind? "date" body = none ∨ mFind? "date" body = some .null)
    (hp : parseBody body = .ok p) : p.date = none := by
  unfold parseBody at hp
  split at hp
  · simp at hp
  · rename_i body₂ hdec
    have hfields := validatePlayer_fields hp
    have hdate := hfields.2.2.2.2.2.2.2.2
    unfold reqDate at hdate
    rw [decodeSkillsField_date hdec] at hdate
    cases hdateF with
    | inl h => rw [h] at hdate; simpa using hdate.symm
    | inr h => rw [h] at hdate; simpa using hdate.symm

theorem listQuery_eq (pid iso : Option String) (db : DB) :
    listQuery pid iso db =
      match buildRows (sortByDateDesc (listSelect pid iso db)) with
      | .ok os => ⟨.rows os, 1, 1⟩
      | .error e => ⟨.exn e, 1, 0⟩ := rfl

theorem listQuery_shape (pid iso : Option String) (db : DB) :
    (∃ os, listQuery pid iso db = ⟨.rows os, 1, 1⟩) ∨
    (∃ e, listQuery pid iso db = ⟨.exn e, 1, 0⟩) := by
  rw [listQuery_eq]
  cases buildRows (sortByDateDesc (listSelect pid iso db)) with
  | ok os => exact Or.inl ⟨os, rfl⟩
  | error e => exact Or.inr ⟨e, rfl⟩

theorem get_all_players_some (player_id : Option String) (d : String) (db : DB) :
    get_all_players player_id (some d) db =
      (if d = "" then listQuery (gapPid player_id) none db
       else
        match strptimeDMY d with
        | none => ⟨.error "Invalid date format. Use DD/MM/YYYY.", 1, 0⟩
        | some dt => listQuery (gapPid player_id) (some (strftimeISO dt)) db) := rfl

theorem get_all_players_shape (player_id date : Option String) (db : DB) :
    get_all_players player_id date db =
      ⟨.error "Invalid date format. Use DD/MM/YYYY.", 1, 0⟩ ∨
    ∃ pidT iso, get_all_players player_id date db = listQuery pidT iso db := by
  cases date with
  | none => exact Or.inr ⟨gapPid player_id, none, rfl⟩
  | some d =>
    rw [get_all_players_some]
    by_cases hd : d = ""
    · rw [if_pos hd]
      exact Or.inr ⟨gapPid player_id, none, rfl⟩
    · rw [if_neg hd]
      cases hp : strptimeDMY d with
      | none => exact Or.inl rfl
      | some dt => exact Or.inr ⟨gapPid player_id, some (strftimeISO dt), rfl⟩

/-! ## The claims -/

/-- C1, counterexample: a List call whose date filter is malformed returns
the error object having opened the connection without closing it
(`return` on line 173 of `server.py` precedes any `conn.close()`), so the
spec's "releases the connection unconditionally ... on all exit paths" is
wrong for List. -/
theorem C1_counterexample :
    get_all_players none (some "not-a-date") emptyDB =
      ⟨.error "Invalid date format. Use DD/MM/YYYY.", 1, 0⟩ := by decide

/-- C1, amended: Save closes every connection it opens on every exit path
(its `finally` block); List closes its connection on every call that
returns a row list, but not on the malformed-date error path. -/
theorem C1_amended_connection_release :
    (∀ (pid : String) (body : JsonMembers) (today : Date) (db : DB),
      (save_player pid body today db).closed = (save_player pid body today db).opened) ∧
    (∀ (player_id date : Option String) (db : DB) (rs : List OutRow),
      (get_all_players player_id date db).resp = .rows rs →
      (get_all_players player_id date db).closed =
        (get_all_players player_id date db).opened) := by
  constructor
  · intro pid body today db
    cases hpb : parseBody body with
    | error e => rw [save_player_err pid today db hpb]
    | ok p => rw [save_player_ok pid today db hpb]
  · intro player_id date db rs h
    rcases get_all_players_shape player_id date db with heq | ⟨pidT, iso, heq⟩
    · rw [heq] at h
      simp at h
    · rw [heq] at h ⊢
      rcases listQuery_shape pidT iso db with ⟨os, hq⟩ | ⟨e, hq⟩
      · rw [hq]
      · rw [hq] at h
        simp at h

/-- C1: the amended theorem instantiated at one save and one row-returning
list call. -/
theorem C1_amended_witness :
    (save_player "p1" .nil ⟨2025, 1, 15⟩ emptyDB).closed =
      (save_player "p1" .nil ⟨2025, 1, 15⟩ emptyDB).opened ∧
    (get_all_players none none emptyDB).closed =
      (get_all_players none none emptyDB).opened :=
  ⟨C1_amended_connection_release.1 "p1" .nil ⟨2025, 1, 15⟩ emptyDB,
   C1_amended_connection_release.2 none none emptyDB [] (by decide)⟩

theorem decodeSkillsField_err {body : JsonMembers} {s e : String}
    (hsk : mFind? "skills" body = some (.str s)) (hls : loads s = .error e) :
    decodeSkillsField body = .error ("Invalid JSON in skills: " ++ e) := by
  have hstep : decodeSkillsField body =
      (match loads s with
       | .ok j => .ok (mSet "skills" j body)
       | .error e => .error ("Invalid JSON in skills: " ++ e)) := by
    unfold decodeSkillsField
    rw [hsk]
  rw [hstep, hls]

theorem resolveDate_some {d : Option String} {ds : String} (h : d = some ds)
    (today : Date) :
    resolveDate d today =
      (match strptimeDMY ds with
       | some dt => strftimeISO dt
       | none => strftimeISO today) := by
  unfold resolveDate
  rw [h]

theorem resolveDate_none {d : Option String} (h : d = none) (today : Date) :
    resolveDate d today = strftimeISO today := by
  unfold resolveDate
  rw [h]

/-- C5: a Save whose skills field is a string that does not decode returns
the `Invalid JSON in skills` error echoing the parse failure, opens no
connection, and leaves the store untouched. -/
theorem C5_bad_skills_error (pid : String) (body : JsonMembers) (s e : String)
    (today : Date) (db : DB)
    (hsk : mFind? "skills" body = some (.str s)) (hls : loads s = .error e) :
    save_player pid body today db =
      ⟨.error ("Invalid JSON in skills: " ++ e), db, 0, 0⟩ := by
  have hpb : parseBody body = .error ("Invalid JSON in skills: " ++ e) := by
    unfold parseBody
    rw [decodeSkillsField_err hsk hls]
  exact save_player_err pid today db hpb

/-- C5 at the body whose skills text is `\x7bnot valid json`. -/
theorem C5_witness :
    save_player "p1" bodyBadSkills ⟨2025, 1, 15⟩ emptyDB =
      ⟨.error ("Invalid JSON in skills: " ++
        "Expecting property name enclosed in double quotes"), emptyDB, 0, 0⟩ :=
  C5_bad_skills_error "p1" bodyBadSkills "\x7bnot valid json"
    "Expecting property name enclosed in double quotes" ⟨2025, 1, 15⟩ emptyDB
    (by decide) (by decide)

/-- C6: a validated Save whose date string does not parse as a real
`DD/MM/YYYY` calendar date succeeds with the success message, appends its
stats row, and that row stores today's date in sortable form. -/
theorem C6_invalid_date_defaults_to_today (pid : String) (body : JsonMembers)
    (p : Player) (ds : String) (today : Date) (db : DB)
    (hp : parseBody body = .ok p) (hdate : p.date = some ds)
    (hbad : strptimeDMY ds = none) :
    (save_player pid body today db).resp =
      .message ("✅ Player " ++ p.name ++ " saved successfully") ∧
    (save_player pid body today db).db.player_stats =
      db.player_stats ++ [mkStatsRow pid p today] ∧
    (mkStatsRow pid p today).date = strftimeISO today := by
  rw [save_player_ok pid today db hp]
  refine ⟨rfl, rfl, ?_⟩
  show resolveDate p.date today = strftimeISO today
  rw [resolveDate_some hdate, hbad]

/-- C6 at the invalid calendar date `31/02/2024`. -/
theorem C6_witness :
    (save_player "p1" (mkBody "Dor" "31/02/2024") ⟨2025, 1, 15⟩ emptyDB).resp =
      .message ("✅ Player " ++ (playerOf "Dor" "31/02/2024").name ++
        " saved successfully") ∧
    (save_player "p1" (mkBody "Dor" "31/02/2024") ⟨2025, 1, 15⟩ emptyDB).db.player_stats =
      emptyDB.player_stats ++
        [mkStatsRow "p1" (playerOf "Dor" "31/02/2024") ⟨2025, 1, 15⟩] ∧
    (mkStatsRow "p1" (playerOf "Dor" "31/02/2024") ⟨2025, 1, 15⟩).date =
      strftimeISO ⟨2025, 1, 15⟩ :=
  C6_invalid_date_defaults_to_today "p1" (mkBody "Dor" "31/02/2024")
    (playerOf "Dor" "31/02/2024") "31/02/2024" ⟨2025, 1, 15⟩ emptyDB
    (by decide) rfl (by decide)

/-- C7: a Save whose body has no date member, or a null one, validates to
a `Player` whose date is `None` (pydantic v1: `date: Optional[str]` with no
explicit default is optional, defaulting to `None`), succeeds, and the
appended row stores today's date in sortable form. -/
theorem C7_missing_date_defaults (pid : String) (body : JsonMembers) (p : Player)
    (today : Date) (db : DB)
    (hdateF : mFind? "date" body = none ∨ mFind? "date" body = some .null)
    (hp : parseBody body = .ok p) :
    p.date = none ∧
    (save_player pid body today db).resp =
      .message ("✅ Player " ++ p.name ++ " saved successfully") ∧
    (save_player pid body today db).db.player_stats =
      db.player_stats ++ [mkStatsRow pid p today] ∧
    (mkStatsRow pid p today).date = strftimeISO today := by
  have hnone := parseBody_date_none hdateF hp
  rw [save_player_ok pid today db hp]
  refine ⟨hnone, rfl, rfl, ?_⟩
  show resolveDate p.date today = strftimeISO today
  rw [resolveDate_none hnone]

/-- C7 at a body with no date member. -/
theorem C7_witness :
    playerNoDate.date = none ∧
    (save_player "p1" bodyNoDate ⟨2025, 1, 15⟩ emptyDB).resp =
      .message ("✅ Player " ++ playerNoDate.name ++ " saved successfully") ∧
    (save_player "p1" bodyNoDate ⟨2025, 1, 15⟩ emptyDB).db.player_stats =
      emptyDB.player_stats ++ [mkStatsRow "p1" playerNoDate ⟨2025, 1, 15⟩] ∧
    (mkStatsRow "p1" playerNoDate ⟨2025, 1, 15⟩).date = strftimeISO ⟨2025, 1, 15⟩ :=
  C7_missing_date_defaults "p1" bodyNoDate playerNoDate ⟨2025, 1, 15⟩ emptyDB
    (Or.inl (by decide)) (by decide)

/-- C8: a List call whose non-empty date parameter does not parse as
`DD/MM/YYYY` returns exactly the documented error object and no rows
(`ListResp.error`, not a row list), without any date fallback. -/
theorem C8_list_bad_date_error (pid : Option String) (d : String) (db : DB)
    (hne : ¬(d = "")) (hbad : strptimeDMY d = none) :
    get_all_players pid (some d) db =
      ⟨.error "Invalid date format. Use DD/MM/YYYY.", 1, 0⟩ := by
  rw [get_all_players_some, if_neg hne, hbad]

/-- C8 at the date parameter `not-a-date` with an identity filter. -/
theorem C8_witness :
    get_all_players (some "p1") (some "not-a-date") dbOrphan =
      ⟨.error "Invalid date format. Use DD/MM/YYYY.", 1, 0⟩ :=
  C8_list_bad_date_error (some "p1") "not-a-date" dbOrphan (by decide) (by decide)

/-- C9: empty-string query parameters behave as absent ones: List with an
empty player_id or date filter equals the unfiltered call, and an empty
date never produces the malformed-date error object. -/
theorem C9_empty_params_absent (db : DB) :
    get_all_players (some "") none db = get_all_players none none db ∧
    get_all_players none (some "") db = get_all_players none none db ∧
    get_all_players (some "") (some "") db = get_all_players none none db ∧
    (∀ e, (get_all_players none (some "") db).resp ≠ ListResp.error e) := by
  refine ⟨rfl, rfl, rfl, ?_⟩
  intro e
  have h : get_all_players none (some "") db = listQuery none none db := rfl
  rw [h]
  rcases listQuery_shape none none db with ⟨os, hq⟩ | ⟨e', hq⟩ <;> rw [hq] <;> simp

/-- C9 at the one-orphan store. -/
theorem C9_witness :
    get_all_players (some "") none dbOrphan = get_all_players none none dbOrphan :=
  (C9_empty_params_absent dbOrphan).1

/-- C2, counterexample: the Save body `bodyLenient` carries the valid-for-
`strptime` date string `1/2/2024`, yet the unfiltered List after saving it
returns the row with date `01/02/2024`: the round trip yields `strftime`'s
zero-padded form, not the original string. -/
theorem C2_counterexample :
    mFind? "date" bodyLenient = some (.str "1/2/2024") ∧
    strptimeDMY "1/2/2024" = some ⟨2024, 2, 1⟩ ∧
    firstRowDate (get_all_players none none
      (save_player "p1" bodyLenient ⟨2025, 1, 15⟩ emptyDB).db).resp =
      some "01/02/2024" ∧
    ¬(("01/02/2024" : String) = "1/2/2024") := by decide

/-- C2, amended: saving one valid body into an empty store and listing
without filters returns exactly one row whose fields and skills mapping
equal the saved ones.  For parsed years of four printed digits (1000..9999)
the returned date is the canonical zero-padded `DD/MM/YYYY` rendering of
the parsed date — equal to the original string exactly when that string was
already canonical; for years below 1000 glibc `strftime` stores the year
unpadded, the stored value no longer re-parses as `%Y-%m-%d`, and List
returns the raw stored sortable string. -/
theorem C2_amended_roundtrip (pid : String) (body : JsonMembers) (p : Player)
    (today : Date) (ds : String) (dt : Date)
    (hwf : wfM body = true) (hp : parseBody body = .ok p)
    (hdate : p.date = some ds) (hparse : strptimeDMY ds = some dt) :
    ∃ r : OutRow,
      (get_all_players none none (save_player pid body today emptyDB).db).resp =
        .rows [r] ∧
      r.id = pid ∧ r.name = p.name ∧ r.specialties = p.specialties ∧
      r.age = p.age ∧ r.TSI = p.TSI ∧ r.salary = p.salary ∧
      r.fitness = p.fitness ∧ r.form = p.form ∧
      r.skills = .obj p.skills ∧
      (1000 ≤ dt.year →
        r.date = strftimeDMY dt ∧ (ds = strftimeDMY dt → r.date = ds)) ∧
      (dt.year < 1000 → r.date = strftimeISO dt) := by
  have hvalid : dt.valid = true := strptimeDMY_valid hparse
  have hdb : (save_player pid body today emptyDB).db =
      ⟨[⟨pid, p.name, p.specialties⟩], [mkStatsRow pid p today]⟩ := by
    rw [save_player_ok pid today emptyDB hp]
    show DB.mk (upsertPlayer emptyDB.players pid p.name p.specialties)
      (emptyDB.player_stats ++ [mkStatsRow pid p today]) = _
    rw [show emptyDB.players = [] from rfl, upsertPlayer_empty]
    rfl
  have hjoin : joinRows (⟨[⟨pid, p.name, p.specialties⟩], [mkStatsRow pid p today]⟩ : DB) =
      [(mkStatsRow pid p today, ⟨pid, p.name, p.specialties⟩)] := by
    simp [joinRows, mkStatsRow]
  have hskwf : wfM p.skills = true := parseBody_skills_wf hwf hp
  have hloads : loads (mkStatsRow pid p today).skills = .ok (.obj p.skills) :=
    loads_dumps hskwf
  have hstore : (mkStatsRow pid p today).date = strftimeISO dt := by
    show resolveDate p.date today = _
    rw [resolveDate_some hdate, hparse]
  have hod : outDate (mkStatsRow pid p today).date = outDate (strftimeISO dt) := by
    rw [hstore]
  refine ⟨⟨pid, p.name, p.specialties, p.age, p.TSI, p.salary, p.fitness, p.form,
    .obj p.skills, outDate (strftimeISO dt)⟩, ?_, rfl, rfl, rfl, rfl, rfl, rfl, rfl,
    rfl, rfl, ?_, ?_⟩
  · rw [hdb, get_all_players_none_none, listQuery_none_none, hjoin,
      sortByDateDesc_single]
    simp only [buildRows, outRow, hloads, hod]
    rfl
  · intro hy
    refine ⟨outDate_strftimeISO hvalid hy, ?_⟩
    intro hds
    rw [outDate_strftimeISO hvalid hy]
    exact hds.symm
  · intro hy
    exact outDate_strftimeISO_small hy

/-- C2: the amended theorem at the canonical-form date `05/06/2024`. -/
theorem C2_amended_witness :
    ∃ r : OutRow,
      (get_all_players none none
        (save_player "p1" bodyTest ⟨2025, 1, 15⟩ emptyDB).db).resp = .rows [r] ∧
      r.id = "p1" ∧ r.name = (playerOf "Dor" "05/06/2024").name ∧
      r.specialties = (playerOf "Dor" "05/06/2024").specialties ∧
      r.age = (playerOf "Dor" "05/06/2024").age ∧
      r.TSI = (playerOf "Dor" "05/06/2024").TSI ∧
      r.salary = (playerOf "Dor" "05/06/2024").salary ∧
      r.fitness = (playerOf "Dor" "05/06/2024").fitness ∧
      r.form = (playerOf "Dor" "05/06/2024").form ∧
      r.skills = .obj (playerOf "Dor" "05/06/2024").skills ∧
      (1000 ≤ (⟨2024, 6, 5⟩ : Date).year →
        r.date = strftimeDMY ⟨2024, 6, 5⟩ ∧
        ("05/06/2024" = strftimeDMY ⟨2024, 6, 5⟩ → r.date = "05/06/2024")) ∧
      ((⟨2024, 6, 5⟩ : Date).year < 1000 → r.date = strftimeISO ⟨2024, 6, 5⟩) :=
  C2_amended_roundtrip "p1" bodyTest (playerOf "Dor" "05/06/2024") ⟨2025, 1, 15⟩
    "05/06/2024" ⟨2024, 6, 5⟩ (by decide) (by decide) rfl (by decide)

/-- C3: two successful Saves under one fresh identity leave exactly one
players row for that identity, carrying the second body's name and
specialties, while the stats table gains both snapshot rows appended after
the untouched existing history. -/
theorem C3_upsert_once_append_twice (pid : String) (b₁ b₂ : JsonMembers)
    (p₁ p₂ : Player) (t₁ t₂ : Date) (db : DB)
    (h₁ : parseBody b₁ = .ok p₁) (h₂ : parseBody b₂ = .ok p₂)
    (hfresh : ∀ q ∈ db.players, q.id ≠ pid) :
    ((save_player pid b₂ t₂ (save_player pid b₁ t₁ db).db).db.players.filter
        (fun q => q.id = pid)) = [⟨pid, p₂.name, p₂.specialties⟩] ∧
    (save_player pid b₂ t₂ (save_player pid b₁ t₁ db).db).db.player_stats =
      db.player_stats ++ [mkStatsRow pid p₁ t₁, mkStatsRow pid p₂ t₂] := by
  have hdb₁ : (save_player pid b₁ t₁ db).db =
      ⟨db.players ++ [⟨pid, p₁.name, p₁.specialties⟩],
       db.player_stats ++ [mkStatsRow pid p₁ t₁]⟩ := by
    rw [save_player_ok pid t₁ db h₁]
    show DB.mk (upsertPlayer db.players pid p₁.name p₁.specialties) _ = _
    rw [upsertPlayer_fresh hfresh]
  rw [hdb₁, save_player_ok pid t₂ _ h₂]
  constructor
  · show ((upsertPlayer (db.players ++ [⟨pid, p₁.name, p₁.specialties⟩])
        pid p₂.name p₂.specialties).filter (fun q => q.id = pid)) = _
    rw [upsertPlayer_append_hit hfresh]
    exact filter_id_append hfresh p₂.name p₂.specialties
  · show (db.player_stats ++ [mkStatsRow pid p₁ t₁]) ++ [mkStatsRow pid p₂ t₂] = _
    rw [List.append_assoc]
    rfl

/-- C3 at two concrete bodies naming Dor then Ron. -/
theorem C3_witness :
    ((save_player "p1" bodyTest2 ⟨2025, 1, 16⟩
        (save_player "p1" bodyTest ⟨2025, 1, 15⟩ emptyDB).db).db.players.filter
        (fun q => q.id = "p1")) =
      [⟨"p1", (playerOf "Ron" "06/06/2024").name,
        (playerOf "Ron" "06/06/2024").specialties⟩] ∧
    (save_player "p1" bodyTest2 ⟨2025, 1, 16⟩
        (save_player "p1" bodyTest ⟨2025, 1, 15⟩ emptyDB).db).db.player_stats =
      emptyDB.player_stats ++
        [mkStatsRow "p1" (playerOf "Dor" "05/06/2024") ⟨2025, 1, 15⟩,
         mkStatsRow "p1" (playerOf "Ron" "06/06/2024") ⟨2025, 1, 16⟩] :=
  C3_upsert_once_append_twice "p1" bodyTest bodyTest2
    (playerOf "Dor" "05/06/2024") (playerOf "Ron" "06/06/2024")
    ⟨2025, 1, 15⟩ ⟨2025, 1, 16⟩ emptyDB (by decide) (by decide)
    (by intro q hq; simp [emptyDB] at hq)

/-- C10: an unfiltered List is an inner join — when player identities are
unique it returns exactly one row per stats row whose player_id has a
players row (orphaned snapshots are omitted); and on every store reachable
through Save alone, no snapshot is omitted: List succeeds and returns one
row per stored snapshot. -/
theorem C10_join_semantics :
    (∀ (db : DB) (rs : List OutRow),
      (db.players.map (fun p => p.id)).Nodup →
      (get_all_players none none db).resp = .rows rs →
      rs.length = (db.player_stats.filter fun s =>
        db.players.any fun p => p.id = s.player_id).length) ∧
    (∀ db : DB, Reachable db →
      ∃ rs, get_all_players none none db = ⟨.rows rs, 1, 1⟩ ∧
        rs.length = db.player_stats.length) := by
  constructor
  · intro db rs hnodup hresp
    rw [get_all_players_none_none, listQuery_none_none] at hresp
    cases hb : buildRows (sortByDateDesc (joinRows db)) with
    | error e =>
      rw [hb] at hresp
      simp at hresp
    | ok os =>
      rw [hb] at hresp
      have hos : os = rs := by simpa using hresp
      rw [← hos, buildRows_length hb, (sortByDateDesc_perm (joinRows db)).length_eq]
      exact joinRows_length hnodup
  · intro db hreach
    obtain ⟨hnodup, hmatch, hskills⟩ := reachable_inv hreach
    have hdec : ∀ r ∈ sortByDateDesc (joinRows db), ∃ j, loads r.1.skills = .ok j := by
      intro r hr
      have hrj : r ∈ joinRows db := (sortByDateDesc_perm (joinRows db)).mem_iff.mp hr
      obtain ⟨m, hm, hsk⟩ := hskills r.1 (mem_joinRows hrj)
      exact ⟨.obj m, by rw [hsk]; exact loads_dumps hm⟩
    have hb := buildRows_of_decodable hdec
    refine ⟨(sortByDateDesc (joinRows db)).map outRowWf, ?_, ?_⟩
    · rw [get_all_players_none_none, listQuery_none_none, hb]
    · have hall : (db.player_stats.filter fun s =>
          db.players.any fun p => p.id = s.player_id) = db.player_stats := by
        rw [List.filter_eq_self]
        intro s hs
        obtain ⟨p, hp, hid⟩ := hmatch s hs
        simp only [List.any_eq_true, decide_eq_true_eq]
        exact ⟨p, hp, hid⟩
      rw [List.length_map, (sortByDateDesc_perm (joinRows db)).length_eq,
        joinRows_length hnodup, hall]

/-- C10 at the one-orphan store (the snapshot is omitted) and at the empty
reachable store. -/
theorem C10_witness :
    ([] : List OutRow).length = (dbOrphan.player_stats.filter fun s =>
      dbOrphan.players.any fun p => p.id = s.player_id).length ∧
    ∃ rs, get_all_players none none emptyDB = ⟨.rows rs, 1, 1⟩ ∧
      rs.length = emptyDB.player_stats.length :=
  ⟨C10_join_semantics.1 dbOrphan [] (by decide) (by decide),
   C10_join_semantics.2 emptyDB Reachable.empty⟩

/-- C4: after N successful Saves under one identity starting from the
empty store, the store holds exactly N snapshot rows, and a List filtered
by that identity succeeds returning those N rows (each joined with the
one players row for the identity), ordered by the internal sortable date
descending. -/
theorem C4_filtered_list_sorted (pid : String) (hpid : ¬(pid = ""))
    (reqs : List (JsonMembers × Date)) (ps : List Player)
    (hf : List.Forall₂ (fun r p => parseBody r.1 = .ok p ∧ wfM r.1 = true) reqs ps)
    (hne : reqs ≠ []) :
    ∃ (P : PlayerRow) (sorted : List (StatsRow × PlayerRow)),
      P.id = pid ∧
      (runSaves pid reqs emptyDB).player_stats.length = reqs.length ∧
      sorted.Perm ((runSaves pid reqs emptyDB).player_stats.map (fun s => (s, P))) ∧
      List.Pairwise dateDescRel sorted ∧
      get_all_players (some pid) none (runSaves pid reqs emptyDB) =
        ⟨.rows (sorted.map outRowWf), 1, 1⟩ := by
  have hwfall : ∀ r ∈ reqs, wfM r.1 = true := by
    intro r hr
    obtain ⟨p, h⟩ := forall₂_left hf r hr
    exact h.2
  have hreach : Reachable (runSaves pid reqs emptyDB) :=
    runSaves_reachable pid reqs emptyDB hwfall Reachable.empty
  cases hf with
  | nil => exact absurd rfl hne
  | @cons r p rest ps' hrp htl =>
    have hdb₁ : (save_player pid r.1 r.2 emptyDB).db =
        ⟨[⟨pid, p.name, p.specialties⟩], [mkStatsRow pid p r.2]⟩ := by
      rw [save_player_ok pid r.2 emptyDB hrp.1]
      show DB.mk (upsertPlayer emptyDB.players pid p.name p.specialties)
        (emptyDB.player_stats ++ [mkStatsRow pid p r.2]) = _
      rw [show emptyDB.players = [] from rfl, upsertPlayer_empty]
      rfl
    have htl' : List.Forall₂ (fun r p => parseBody r.1 = Except.ok p) rest ps' :=
      htl.imp (fun _ _ h => h.1)
    have hrun : runSaves pid (r :: rest) emptyDB =
        runSaves pid rest (save_player pid r.1 r.2 emptyDB).db := rfl
    obtain ⟨hstats, n', sp', hplayers⟩ :=
      runSaves_from_single pid htl'
        ((save_player pid r.1 r.2 emptyDB).db) p.name p.specialties (by rw [hdb₁])
    rw [← hrun] at hstats hplayers
    rw [hdb₁] at hstats
    have hallpid : ∀ s ∈ (runSaves pid (r :: rest) emptyDB).player_stats,
        s.player_id = pid := by
      intro s hs
      rw [hstats] at hs
      rcases List.mem_append.mp hs with h | h
      · rcases List.mem_singleton.mp h with rfl
        rfl
      · exact mem_zipWith_mkStatsRow pid h
    have hlen : (runSaves pid (r :: rest) emptyDB).player_stats.length =
        (r :: rest).length := by
      have hle := htl'.length_eq
      simp [hstats, List.length_zipWith]
      omega
    have hjoin : joinRows (runSaves pid (r :: rest) emptyDB) =
        (runSaves pid (r :: rest) emptyDB).player_stats.map
          (fun s => (s, (⟨pid, n', sp'⟩ : PlayerRow))) :=
      joinRows_single hplayers hallpid
    have hfilter : ((joinRows (runSaves pid (r :: rest) emptyDB)).filter
        (fun x => (x.2.id = pid : Bool))) = joinRows (runSaves pid (r :: rest) emptyDB) := by
      rw [List.filter_eq_self]
      intro x hx
      rw [hjoin] at hx
      obtain ⟨s, hs, rfl⟩ := List.mem_map.mp hx
      simp
    obtain ⟨hnodup, hmatch, hskills⟩ := reachable_inv hreach
    have hdec : ∀ x ∈ sortByDateDesc (joinRows (runSaves pid (r :: rest) emptyDB)),
        ∃ j, loads x.1.skills = .ok j := by
      intro x hx
      have hxj := (sortByDateDesc_perm _).mem_iff.mp hx
      obtain ⟨m, hm, hsk⟩ := hskills x.1 (mem_joinRows hxj)
      exact ⟨.obj m, by rw [hsk]; exact loads_dumps hm⟩
    have hbuild := buildRows_of_decodable hdec
    refine ⟨⟨pid, n', sp'⟩, sortByDateDesc (joinRows (runSaves pid (r :: rest) emptyDB)),
      rfl, hlen, ?_, sortByDateDesc_sorted _, ?_⟩
    · rw [← hjoin]
      exact sortByDateDesc_perm _
    · rw [get_all_players_some_none hpid, listQuery_some_none, hfilter, hbuild]

/-- C4 at two saves with distinct dates: the earlier-dated one listed
second. -/
theorem C4_witness :
    ∃ (P : PlayerRow) (sorted : List (StatsRow × PlayerRow)),
      P.id = "p1" ∧
      (runSaves "p1" [(bodyTest, ⟨2025, 1, 15⟩), (bodyTest2, ⟨2025, 1, 16⟩)]
        emptyDB).player_stats.length = 2 ∧
      sorted.Perm ((runSaves "p1" [(bodyTest, ⟨2025, 1, 15⟩), (bodyTest2, ⟨2025, 1, 16⟩)]
        emptyDB).player_stats.map (fun s => (s, P))) ∧
      List.Pairwise dateDescRel sorted ∧
      get_all_players (some "p1") none
        (runSaves "p1" [(bodyTest, ⟨2025, 1, 15⟩), (bodyTest2, ⟨2025, 1, 16⟩)] emptyDB) =
        ⟨.rows (sorted.map outRowWf), 1, 1⟩ :=
  C4_filtered_list_sorted "p1" (by decide)
    [(bodyTest, ⟨2025, 1, 15⟩), (bodyTest2, ⟨2025, 1, 16⟩)]
    [playerOf "Dor" "05/06/2024", playerOf "Ron" "06/06/2024"]
    (List.Forall₂.cons ⟨by decide, by decide⟩
      (List.Forall₂.cons ⟨by decide, by decide⟩ List.Forall₂.nil))
    (by decide)

end Hattrick
